import Mathlib

/-
  Verification of the campaign/delivery scheduling and status-aggregation
  engine of the email-api repository.

  The embedding follows src/src/utils/db.py (class DatabaseHandler),
  src/src/utils/time.py, src/src/send_worker.py and src/src/Home.py.
  TinyDB tables are modelled as association lists from document id to row,
  kept in insertion order, exactly as TinyDB stores and searches them.
  TinyDB assigns a fresh document id of (max existing id) + 1 on insert.
  Operations that would raise in Python (for example update on a missing
  doc id raises KeyError before any mutation) are modelled as leaving the
  store unchanged, since the exception propagates before any write.
-/

namespace EmailApp

/-- Counts aggregate stored on a campaign row, as built at
db.py line 148 and recomputed at db.py line 265. -/
structure Counts where
  total : Nat
  pending : Nat
  sent : Nat
  failed : Nat
deriving DecidableEq, Repr

/-- Row of the profiles table (db.py lines 76 to 81). -/
structure Profile where
  name : String
  email : String
  title : String
  profession : String
deriving DecidableEq, Repr

/-- Recipient snapshot captured at schedule time (db.py lines 153 to 158);
fields are none when the profile is missing. -/
structure Snapshot where
  name : Option String
  email : Option String
  title : Option String
  profession : Option String
deriving DecidableEq, Repr

/-- Row of the emails (campaigns) table, as inserted at db.py lines 136 to 149.
The sender profile document is not relevant to any verified claim and is
elided; all fields read or written by the verified operations are present.
Times are kept in their stored canonical string form. -/
structure Campaign where
  subject : String
  body : String
  body_is_html : Bool
  recipients : List Nat
  status : String
  schedule_time : String
  sent_time : Option String
  reminder_date : Option String
  add_signature : Bool
  attachments : List String
  counts : Counts
deriving DecidableEq, Repr

/-- Row of the deliveries table, as inserted at db.py lines 159 to 169.
The rendered_body key is absent until a successful send stores it
(db.py line 244); absence is modelled as none. -/
structure Delivery where
  campaign_id : Nat
  recipient_id : Nat
  recipient_email : Option String
  recipient_snapshot : Snapshot
  status : String
  error : Option String
  schedule_time : String
  sent_time : Option String
  last_attempt : Option String
  rendered_body : Option String
deriving DecidableEq, Repr

/-- The shared persisted store: the three tables that the verified
operations touch (db.py lines 29 to 36). -/
structure Store where
  profiles : List (Nat × Profile)
  emails : List (Nat × Campaign)
  deliveries : List (Nat × Delivery)
deriving DecidableEq, Repr

/-- TinyDB document id assignment: one more than the largest existing id
(1 on an empty table). -/
def nextId (tbl : List (Nat × α)) : Nat :=
  (tbl.map Prod.fst).foldr max 0 + 1

/-- TinyDB get by doc id. -/
def getRow (tbl : List (Nat × α)) (i : Nat) : Option α :=
  match tbl with
  | [] => none
  | p :: rest => if p.1 = i then some p.2 else getRow rest i

/-- TinyDB update of a single doc id with a patch function; a missing id
leaves the table unchanged (in Python the KeyError propagates before any
write). -/
def updateRow (tbl : List (Nat × α)) (i : Nat) (f : α → α) : List (Nat × α) :=
  tbl.map fun p => if p.1 = i then (p.1, f p.2) else p

/-- TinyDB remove by a list of doc ids. -/
def removeRows (tbl : List (Nat × α)) (ids : List Nat) : List (Nat × α) :=
  tbl.filter fun p => !(ids.contains p.1)

/-- Delivery row created for one recipient (db.py lines 151 to 169). -/
def mkDelivery (profiles : List (Nat × Profile)) (cid : Nat) (sched_utc : String)
    (rid : Nat) : Delivery :=
  let snapshot : Snapshot :=
    match getRow profiles rid with
    | some prof => ⟨some prof.name, some prof.email, some prof.title, some prof.profession⟩
    | none => ⟨none, none, none, none⟩
  { campaign_id := cid
    recipient_id := rid
    recipient_email := snapshot.email
    recipient_snapshot := snapshot
    status := "pending"
    error := none
    schedule_time := sched_utc
    sent_time := none
    last_attempt := none
    rendered_body := none }

/-- The insertion loop of schedule_email (db.py lines 151 to 169): one
delivery row per recipient id, each inserted with a fresh TinyDB id. -/
def insertDeliveries (profiles : List (Nat × Profile)) (cid : Nat) (sched_utc : String)
    (tbl : List (Nat × Delivery)) : List Nat → List (Nat × Delivery)
  | [] => tbl
  | rid :: rest =>
      insertDeliveries profiles cid sched_utc
        (tbl ++ [(nextId tbl, mkDelivery profiles cid sched_utc rid)]) rest

/-- DatabaseHandler.schedule_email (db.py lines 119 to 171). The input
datetime has already been converted to its canonical UTC string by
to_utc_iso (db.py line 130); that conversion is modelled separately in the
time section below. Returns the new store and the campaign id. -/
def schedule_email (s : Store) (subject body : String) (recipients : List Nat)
    (sched_utc : String) (add_signature : Bool) (attachments : List String)
    (reminder_date : Option String) (body_is_html : Bool) : Store × Nat :=
  let cid := nextId s.emails
  let camp : Campaign :=
    { subject := subject
      body := body
      body_is_html := body_is_html
      recipients := recipients
      status := "scheduled"
      schedule_time := sched_utc
      sent_time := none
      reminder_date := reminder_date
      add_signature := add_signature
      attachments := attachments
      counts := ⟨recipients.length, recipients.length, 0, 0⟩ }
  let s1 : Store :=
    { s with
      emails := s.emails ++ [(cid, camp)]
      deliveries := insertDeliveries s.profiles cid sched_utc s.deliveries recipients }
  (s1, cid)

/-- The delivery rows of one campaign, in table order
(db.py lines 257 to 258). -/
def deliveriesOf (s : Store) (cid : Nat) : List Delivery :=
  (s.deliveries.filter fun p => p.2.campaign_id = cid).map Prod.snd

/-- DatabaseHandler._recompute_campaign_aggregates (db.py lines 255 to 282),
with the current clock passed explicitly in place of now_utc_iso(). -/
def recompute_campaign_aggregates (s : Store) (now_iso : String) (cid : Nat) : Store :=
  let ds := deliveriesOf s cid
  let total := ds.length
  let pending := (ds.filter fun d => d.status = "pending").length
  let sent := (ds.filter fun d => d.status = "sent").length
  let failed := (ds.filter fun d => d.status = "failed").length
  let counts : Counts := ⟨total, pending, sent, failed⟩
  let patch : Campaign → Campaign :=
    if pending = 0 then
      if total = 0 then
        fun c => { c with counts := counts }
      else
        let status := if sent = total then "sent"
          else if failed = total then "failed" else "partial"
        fun c => { c with counts := counts, status := status, sent_time := some now_iso }
    else
      fun c => { c with counts := counts }
  { s with emails := updateRow s.emails cid patch }

/-- The per-delivery patch built by update_delivery_status
(db.py lines 239 to 246): on a sent outcome it stamps sent_time, clears
error and caches the rendered body when given; on any other status it sets
error to the given reason, substituting "send_error" for a missing or
empty reason (Python: error or "send_error"). -/
def deliveryPatch (now_iso status : String) (error : Option String)
    (rendered_body : Option String) (d : Delivery) : Delivery :=
  if status = "sent" then
    { d with
      status := status
      last_attempt := some now_iso
      sent_time := some now_iso
      error := none
      rendered_body :=
        match rendered_body with
        | some rb => some rb
        | none => d.rendered_body }
  else
    { d with
      status := status
      last_attempt := some now_iso
      error :=
        match error with
        | none => some "send_error"
        | some e => if e = "" then some "send_error" else some e }

/-- DatabaseHandler.update_delivery_status (db.py lines 235 to 252):
patch the delivery row, then refresh the owning campaign aggregate. -/
def update_delivery_status (s : Store) (now_iso : String) (delivery_id : Nat)
    (status : String) (error : Option String) (rendered_body : Option String) : Store :=
  let s1 : Store :=
    { s with deliveries :=
        updateRow s.deliveries delivery_id (deliveryPatch now_iso status error rendered_body) }
  match getRow s1.deliveries delivery_id with
  | none => s1
  | some d => recompute_campaign_aggregates s1 now_iso d.campaign_id

/-- DatabaseHandler.delete_scheduled_email (db.py lines 182 to 201):
remove only the pending deliveries of the campaign, recompute the
aggregate, and drop the campaign row when no deliveries remain at all. -/
def delete_scheduled_email (s : Store) (now_iso : String) (email_doc_id : Nat) : Store :=
  let pending_ids :=
    ((s.deliveries.filter fun p =>
        p.2.campaign_id = email_doc_id && p.2.status = "pending").map Prod.fst)
  let s1 : Store := { s with deliveries := removeRows s.deliveries pending_ids }
  let s2 := recompute_campaign_aggregates s1 now_iso email_doc_id
  let remaining := s2.deliveries.filter fun p => p.2.campaign_id = email_doc_id
  if remaining.isEmpty then
    { s2 with emails := s2.emails.filter fun p => p.1 ≠ email_doc_id }
  else s2

/-- Python string comparison a <= b: lexicographic on code points.
lexLt models a < b; the less-or-equal test is the negation of the
reversed strict test, as for any total lexicographic order. -/
def lexLt : List Char → List Char → Bool
  | [], [] => false
  | [], _ :: _ => true
  | _ :: _, [] => false
  | a :: as, b :: bs =>
      if a.toNat < b.toNat then true
      else if b.toNat < a.toNat then false
      else lexLt as bs

/-- Python string less-or-equal, used by the TinyDB query
Delivery.schedule_time <= now_iso (db.py line 232). -/
def strLe (a b : String) : Bool := !(lexLt b.data a.data)

/-- DatabaseHandler.get_due_deliveries (db.py lines 226 to 233), with the
current clock string passed explicitly in place of now_utc_iso(). -/
def get_due_deliveries (s : Store) (now_iso : String) : List (Nat × Delivery) :=
  s.deliveries.filter fun p => p.2.status = "pending" && strLe p.2.schedule_time now_iso

/-- DatabaseHandler.search_emails (db.py lines 208 to 218) filters on
TinyDB Query.search over subject and body, and Query.search applies
re.search(term, value, re.IGNORECASE) to the field value. Python's regex
engine is library code outside this repository, so the embedding takes the
matcher as an explicit parameter: instantiating re_search at the engine
gives the program, and any property proved for every matcher holds of it
for every term, metacharacters and invalid patterns included. reSearch
below supplies a concrete matcher that agrees with re.search on the
fragment the theorems apply it to. -/
def search_emails (re_search : String → String → Bool) (s : Store)
    (search_term : String) : List (Nat × Campaign) :=
  s.emails.filter fun p =>
    p.2.status = "sent" &&
      (re_search search_term p.2.subject || re_search search_term p.2.body)

/-- Anchored-match kernel of a PARTIAL model of re.search with
re.IGNORECASE: it is faithful to Python only for patterns built from
literal characters and the dot metacharacter, where dot matches any
character except a newline and literals compare case-insensitively via
Char.toLower (which agrees with Python case folding on ASCII). A pattern
holding any other metacharacter - a quantifier such as in ab*, a class, a
group, an anchor, or an invalid pattern such as a[ on which re.search
raises re.error - is outside the model, and no theorem applies the model
to one. -/
def reMatchAt : List Char → List Char → Bool
  | [], _ => true
  | _ :: _, [] => false
  | p :: ps, c :: cs =>
      (if p = '.' then c ≠ '\n' else p.toLower = c.toLower) && reMatchAt ps cs

/-- Scan of every start position for an anchored reMatchAt match, as
re.search scans; same literals-plus-dot fragment as reMatchAt. -/
def reSearchAux (p : List Char) : List Char → Bool
  | [] => reMatchAt p []
  | c :: cs => reMatchAt p (c :: cs) || reSearchAux p cs

/-- The literals-plus-dot model of re.search(term, text, re.IGNORECASE) as
a boolean, the shape TinyDB Query.search reduces it to. Valid only for
terms in the fragment described at reMatchAt; theorems instantiate the
matcher of search_emails with it only at such terms. -/
def reSearch (term text : String) : Bool :=
  reSearchAux term.data text.data

/-- The special characters of Python's re module. A term containing none
of them is matched by re.search purely as a literal string. -/
def regexMeta (c : Char) : Bool :=
  c = '.' || c = '^' || c = '$' || c = '*' || c = '+' || c = '?' ||
    c = '\x7b' || c = '\x7d' || c = '[' || c = ']' || c = '\\' || c = '|' ||
    c = '(' || c = ')'

/-- The term is free of every regex metacharacter, so re.search treats
each of its characters as a literal and reSearch models it exactly. -/
def isLiteralTerm (t : String) : Bool :=
  t.data.all fun c => !(regexMeta c)

/-- Case-insensitive prefix test on character lists, written from the
claim wording (substring containment), to compare against the code. -/
def isPrefixCI : List Char → List Char → Bool
  | [], _ => true
  | _ :: _, [] => false
  | a :: as, b :: bs => (a.toLower = b.toLower) && isPrefixCI as bs

/-- Scan of every start position for a case-insensitive prefix match,
the auxiliary of the spec-side substring predicate. -/
def containsCIAux (needle : List Char) : List Char → Bool
  | [] => isPrefixCI needle []
  | c :: cs => isPrefixCI needle (c :: cs) || containsCIAux needle cs

/-- Spec-side predicate: the needle occurs in the haystack as a
case-insensitive substring. Written from the claim wording, not from the
code, to state what search_emails is claimed to compute. -/
def containsCI (needle hay : String) : Bool :=
  containsCIAux needle.data hay.data

/-- DatabaseHandler.get_due_emails (db.py lines 285 to 291), the legacy
campaign-level query the shipped worker polls. -/
def get_due_emails (s : Store) (now_iso : String) : List (Nat × Campaign) :=
  s.emails.filter fun p => p.2.status = "scheduled" && strLe p.2.schedule_time now_iso

/-- One Processing cycle of the shipped worker loop
(send_worker.py lines 60 to 121). The loop polls get_due_emails; for each
job it renders and transports per recipient (external side effects, no
store writes; a per-recipient exception is only logged, lines 107 to 110),
and then calls db.update_email_status (line 113) — a method DatabaseHandler
does not define. That attribute lookup raises AttributeError for the first
job, the outer handler at line 118 catches it, and the cycle ends. The
store is therefore never written by a cycle; the cycle reports the caught
error exactly when the due list is nonempty. -/
def workerCycle (s : Store) (now_iso : String) : Store × Option String :=
  match get_due_emails s now_iso with
  | [] => (s, none)
  | _ :: _ => (s, some "AttributeError: DatabaseHandler has no attribute update_email_status")

/-- Outcome reported for one delivery attempt, as the spec defines
reportOutcome: a sent outcome with an optional rendered body, or a failed
outcome with an optional reason code. -/
inductive Outcome
  | sent (rendered_body : Option String)
  | failed (reason : Option String)
deriving DecidableEq, Repr

/-- One repository operation, with the clock string the operation reads
where the code calls now_utc_iso(). schedule_email never reads the clock.
reportOutcome maps to update_delivery_status with status "sent" or
"failed" exactly as the spec contract invokes it. -/
inductive Op
  | schedule (subject body : String) (recipients : List Nat) (sched_utc : String)
      (add_signature : Bool) (attachments : List String)
      (reminder_date : Option String) (body_is_html : Bool)
  | report (now_iso : String) (delivery_id : Nat) (outcome : Outcome)
  | cancel (now_iso : String) (campaign_id : Nat)
deriving DecidableEq, Repr

/-- Apply one repository operation to the store. -/
def applyOp (s : Store) : Op → Store
  | .schedule subject body recipients sched_utc sig atts rem html =>
      (schedule_email s subject body recipients sched_utc sig atts rem html).1
  | .report now_iso delivery_id (.sent rb) =>
      update_delivery_status s now_iso delivery_id "sent" none rb
  | .report now_iso delivery_id (.failed reason) =>
      update_delivery_status s now_iso delivery_id "failed" reason none
  | .cancel now_iso campaign_id =>
      delete_scheduled_email s now_iso campaign_id

/-- Run a sequence of repository operations. -/
def runOps (s : Store) : List Op → Store
  | [] => s
  | op :: rest => runOps (applyOp s op) rest

/-- A store as created before any campaign exists: profiles loaded, the
emails and deliveries tables empty. -/
def initStore (profiles : List (Nat × Profile)) : Store :=
  ⟨profiles, [], []⟩

/-
  Canonical timestamps. time.py stores every time as
  datetime.isoformat() with the UTC suffix replaced by Z
  (now_utc_iso, to_utc_iso, lines 28 to 38). Python isoformat renders
  YYYY-MM-DDTHH:MM:SS and appends .ffffff (six digits) exactly when the
  microsecond field is nonzero.
-/

/-- Field representation of a canonical UTC timestamp as Python
datetime carries it. -/
structure IsoTime where
  year : Nat
  month : Nat
  day : Nat
  hour : Nat
  minute : Nat
  second : Nat
  micro : Nat
deriving DecidableEq, Repr

/-- Field ranges of a Python datetime that isoformat renders with the
fixed widths used below. -/
def WFIso (t : IsoTime) : Prop :=
  t.year < 10000 ∧ t.month < 13 ∧ t.day < 32 ∧ t.hour < 24 ∧
    t.minute < 60 ∧ t.second < 60 ∧ t.micro < 1000000

instance (t : IsoTime) : Decidable (WFIso t) := by
  unfold WFIso; infer_instance

/-- Decimal digit character. -/
def dchar (d : Nat) : Char := Char.ofNat (48 + d)

/-- Zero-padded fixed-width decimal rendering, as Python %0Nd formatting
inside isoformat. -/
def padNum : Nat → Nat → List Char
  | 0, _ => []
  | w + 1, n => dchar (n / 10 ^ w) :: padNum w (n % 10 ^ w)

/-- Character list of the canonical timestamp string: Python
isoformat with sep T, with the fraction omitted when micro = 0 and the
trailing Z of the storage format. -/
def renderIsoChars (t : IsoTime) : List Char :=
  padNum 4 t.year ++ '-' ::
    (padNum 2 t.month ++ '-' ::
      (padNum 2 t.day ++ 'T' ::
        (padNum 2 t.hour ++ ':' ::
          (padNum 2 t.minute ++ ':' ::
            (padNum 2 t.second ++
              (if t.micro = 0 then ['Z'] else '.' :: (padNum 6 t.micro ++ ['Z'])))))))

/-- Canonical timestamp string, the exact stored form. -/
def renderIso (t : IsoTime) : String := String.mk (renderIsoChars t)

/-- Absolute-time value of a timestamp in microseconds on a mixed-radix
scale that is strictly monotone in real time for in-range fields: two
timestamps compare numerically exactly as the instants they denote. -/
def encodeIso (t : IsoTime) : Nat :=
  ((((((t.year * 13 + t.month) * 32 + t.day) * 24 + t.hour) * 60 +
    t.minute) * 60 + t.second) * 1000000) + t.micro

/-
  Timezone conversion, time.py lines 32 to 55. A datetime instant is
  modelled as an integer count of seconds on the UTC line; a naive local
  wall-clock value as an integer count of seconds on the local wall-clock
  line. A tzinfo object is modelled by its two offset views: the offset
  that replace(tzinfo=tz) attaches to a naive wall-clock value (with
  fold = 0 disambiguation, PEP 495), and the offset astimezone applies at
  a UTC instant. The isoformat / fromisoformat codec between instants and
  canonical strings is injective and is elided at this level; renderIso
  above is its rendering half.
-/

/-- A timezone as the pair of offset views described above, in seconds. -/
structure Tz where
  offsetOfLocal : Int → Int
  offsetOfUtc : Int → Int

/-- to_utc_iso on a naive datetime (time.py lines 32 to 38):
attach the app timezone to the wall-clock value, convert to UTC. -/
def to_utc_instant (tz : Tz) (d : Int) : Int := d - tz.offsetOfLocal d

/-- parse_iso_to_local (time.py lines 50 to 55): parse the canonical
string back to a UTC instant and convert it to the app timezone. -/
def local_of_utc_instant (tz : Tz) (u : Int) : Int := u + tz.offsetOfUtc u

/-- The round trip of the claim: a naive local schedule time through
canonical storage and back through the display timezone. -/
def local_roundtrip (tz : Tz) (d : Int) : Int :=
  local_of_utc_instant tz (to_utc_instant tz d)

/-- A fixed-offset timezone (for example the UTC fallback of
get_app_tz, time.py line 23). -/
def fixedTz (o : Int) : Tz := ⟨fun _ => o, fun _ => o⟩

/-- Europe/Rome during 2026, the default display timezone of time.py
(line 5), modelled from the tz database: UTC+1 (CET) with UTC+2 (CEST)
between 2026-03-29T01:00Z and 2026-10-25T01:00Z. Counts are seconds since
2026-01-01T00:00 on each line. The local view uses fold = 0: a wall-clock
value before 03:00 on March 29 carries the pre-transition offset, and a
wall-clock value before 03:00 on October 25 carries the daylight offset. -/
def romeTz : Tz :=
  { offsetOfLocal := fun d =>
      if d < 7527600 then 3600 else if d < 25671600 then 7200 else 3600
    offsetOfUtc := fun u =>
      if u < 7520400 then 3600 else if u < 25664400 then 7200 else 3600 }

/-
  Derived notions used to state the invariants of the claims.
-/

/-- Document ids of a table. -/
def keysOf (tbl : List (Nat × α)) : List Nat := tbl.map Prod.fst

/-- The counts a full rescan of the deliveries table yields for one
campaign, exactly as recompute_campaign_aggregates recounts them. -/
def actualCounts (s : Store) (cid : Nat) : Counts :=
  let ds := deliveriesOf s cid
  ⟨ds.length,
    (ds.filter fun d => d.status = "pending").length,
    (ds.filter fun d => d.status = "sent").length,
    (ds.filter fun d => d.status = "failed").length⟩

/-- The terminal status recompute_campaign_aggregates assigns once no
delivery is pending and at least one exists (db.py lines 273 to 279). -/
def aggStatus (c : Counts) : String :=
  if c.sent = c.total then "sent" else if c.failed = c.total then "failed" else "partial"

/-- The state invariant maintained by every repository operation:
document ids are unique per table, every delivery references an existing
campaign, delivery statuses range over the three delivery states, the
error field is populated exactly on failed deliveries, stored counts
agree with a full rescan, and the campaign status matches its counts
(campaigns with no deliveries at all keep status scheduled). -/
def Inv (s : Store) : Prop :=
  (keysOf s.emails).Nodup ∧
  (keysOf s.deliveries).Nodup ∧
  (∀ p ∈ s.deliveries, p.2.campaign_id ∈ keysOf s.emails) ∧
  (∀ p ∈ s.deliveries,
      p.2.status = "pending" ∨ p.2.status = "sent" ∨ p.2.status = "failed") ∧
  (∀ p ∈ s.deliveries, (p.2.error ≠ none ↔ p.2.status = "failed")) ∧
  (∀ p ∈ s.emails, p.2.counts = actualCounts s p.1) ∧
  (∀ p ∈ s.emails,
      ((actualCounts s p.1).total = 0 → p.2.status = "scheduled") ∧
      (0 < (actualCounts s p.1).pending → p.2.status = "scheduled") ∧
      ((actualCounts s p.1).pending = 0 → 0 < (actualCounts s p.1).total →
        p.2.status = aggStatus (actualCounts s p.1)))

/-- A delivery id is present in the deliveries table after every prefix
of the given operation sequence: the row is never deleted along the way
(TinyDB may reuse the id of a deleted row for a later insert, so identity
of a row over time is only meaningful while it persists). -/
def persistsThrough (s : Store) (ops : List Op) (i : Nat) : Prop :=
  ∀ k ≤ ops.length, i ∈ keysOf (runOps s (ops.take k)).deliveries

/-
  Lemmas about the table primitives.
-/

theorem keysOf_nil : keysOf ([] : List (Nat × α)) = [] := rfl

theorem keysOf_cons {p : Nat × α} {tbl : List (Nat × α)} :
    keysOf (p :: tbl) = p.1 :: keysOf tbl := rfl

theorem keysOf_append {t1 t2 : List (Nat × α)} :
    keysOf (t1 ++ t2) = keysOf t1 ++ keysOf t2 := by
  simp [keysOf]

theorem mem_keysOf {tbl : List (Nat × α)} {i : Nat} :
    i ∈ keysOf tbl ↔ ∃ a, (i, a) ∈ tbl := by
  constructor
  · intro h
    rcases List.mem_map.mp h with ⟨⟨j, a⟩, hmem, hj⟩
    exact ⟨a, by simpa [← hj] using hmem⟩
  · rintro ⟨a, h⟩
    exact List.mem_map.mpr ⟨(i, a), h, rfl⟩

theorem le_fold_max {l : List Nat} {i : Nat} (h : i ∈ l) : i ≤ l.foldr max 0 := by
  induction l with
  | nil => cases h
  | cons x xs ih =>
      rcases List.mem_cons.mp h with rfl | h'
      · exact Nat.le_max_left _ _
      · exact (ih h').trans (Nat.le_max_right _ _)

theorem lt_nextId {tbl : List (Nat × α)} {p : Nat × α} (h : p ∈ tbl) :
    p.1 < nextId tbl := by
  have h1 : p.1 ∈ keysOf tbl := List.mem_map_of_mem _ h
  have h2 : p.1 ≤ (keysOf tbl).foldr max 0 := le_fold_max h1
  have : nextId tbl = (keysOf tbl).foldr max 0 + 1 := rfl
  omega

theorem nextId_not_mem {tbl : List (Nat × α)} : nextId tbl ∉ keysOf tbl := by
  intro h
  rcases mem_keysOf.mp h with ⟨a, ha⟩
  exact absurd (lt_nextId ha) (by simp)

theorem mem_of_getRow_eq_some {tbl : List (Nat × α)} {i : Nat} {a : α}
    (h : getRow tbl i = some a) : (i, a) ∈ tbl := by
  induction tbl with
  | nil => simp [getRow] at h
  | cons p rest ih =>
      by_cases hp : p.1 = i
      · simp [getRow, hp] at h
        subst h
        exact List.mem_cons.mpr (Or.inl (by rw [← hp]))
      · simp [getRow, hp] at h
        exact List.mem_cons.mpr (Or.inr (ih h))

theorem getRow_eq_some_of_mem {tbl : List (Nat × α)} (hnd : (keysOf tbl).Nodup)
    {i : Nat} {a : α} (h : (i, a) ∈ tbl) : getRow tbl i = some a := by
  induction tbl with
  | nil => cases h
  | cons p rest ih =>
      rw [keysOf_cons, List.nodup_cons] at hnd
      rcases List.mem_cons.mp h with rfl | h'
      · simp [getRow]
      · have hp : p.1 ≠ i := by
          intro e
          exact hnd.1 (e ▸ mem_keysOf.mpr ⟨a, h'⟩)
        simp [getRow, hp]
        exact ih hnd.2 h'

theorem getRow_eq_none_iff {tbl : List (Nat × α)} {i : Nat} :
    getRow tbl i = none ↔ i ∉ keysOf tbl := by
  induction tbl with
  | nil => simp [getRow, keysOf_nil]
  | cons p rest ih =>
      rw [keysOf_cons]
      by_cases hp : p.1 = i
      · simp [getRow, hp]
      · simp [getRow, hp, ih, Ne.symm hp]

theorem mem_updateRow {tbl : List (Nat × α)} {i : Nat} {f : α → α} {q : Nat × α} :
    q ∈ updateRow tbl i f ↔ ∃ p ∈ tbl, q = if p.1 = i then (p.1, f p.2) else p := by
  simp [updateRow, List.mem_map, eq_comm]

theorem keysOf_updateRow {tbl : List (Nat × α)} {i : Nat} {f : α → α} :
    keysOf (updateRow tbl i f) = keysOf tbl := by
  induction tbl with
  | nil => rfl
  | cons p rest ih =>
      by_cases hp : p.1 = i <;>
        simp [updateRow, keysOf_cons, hp] at ih ⊢ <;> exact ih

theorem updateRow_of_not_mem {tbl : List (Nat × α)} {i : Nat} {f : α → α}
    (h : i ∉ keysOf tbl) : updateRow tbl i f = tbl := by
  induction tbl with
  | nil => rfl
  | cons p rest ih =>
      rw [keysOf_cons] at h
      have h1 : p.1 ≠ i := fun e => h (by simp [e])
      have h2 : i ∉ keysOf rest := fun e => h (by simp [e])
      simp [updateRow, h1] at ih ⊢
      exact ih h2

theorem mem_removeRows {tbl : List (Nat × α)} {ids : List Nat} {q : Nat × α} :
    q ∈ removeRows tbl ids ↔ q ∈ tbl ∧ q.1 ∉ ids := by
  simp [removeRows, List.mem_filter]

theorem removeRows_sublist {tbl : List (Nat × α)} {ids : List Nat} :
    (removeRows tbl ids).Sublist tbl :=
  List.filter_sublist _

theorem insertDeliveries_spec (profiles : List (Nat × Profile)) (cid : Nat)
    (sched : String) :
    ∀ (rids : List Nat) (tbl : List (Nat × Delivery)),
      ∃ ext, insertDeliveries profiles cid sched tbl rids = tbl ++ ext ∧
        ext.map Prod.snd = rids.map (mkDelivery profiles cid sched) ∧
        (∀ q ∈ ext, nextId tbl ≤ q.1) ∧
        (keysOf ext).Nodup := by
  intro rids
  induction rids with
  | nil =>
      intro tbl
      exact ⟨[], by simp [insertDeliveries], by simp, by simp, by simp [keysOf_nil]⟩
  | cons r rs ih =>
      intro tbl
      obtain ⟨ext', he, hm, hge, hnd⟩ :=
        ih (tbl ++ [(nextId tbl, mkDelivery profiles cid sched r)])
      have hlt : nextId tbl <
          nextId (tbl ++ [(nextId tbl, mkDelivery profiles cid sched r)]) :=
        @lt_nextId _ (tbl ++ [(nextId tbl, mkDelivery profiles cid sched r)])
          (nextId tbl, mkDelivery profiles cid sched r) (by simp)
      refine ⟨(nextId tbl, mkDelivery profiles cid sched r) :: ext', ?_, ?_, ?_, ?_⟩
      · simpa [insertDeliveries, List.append_assoc] using he
      · simp [hm]
      · intro q hq
        rcases List.mem_cons.mp hq with rfl | hq'
        · simp
        · have := hge q hq'
          omega
      · rw [keysOf_cons, List.nodup_cons]
        refine ⟨?_, hnd⟩
        intro hcontra
        rcases mem_keysOf.mp hcontra with ⟨a, ha⟩
        have := hge (nextId tbl, a) ha
        omega

/-
  Lemmas about counts and the invariant.
-/

theorem length_eq_sum_status {ds : List Delivery}
    (h : ∀ d ∈ ds, d.status = "pending" ∨ d.status = "sent" ∨ d.status = "failed") :
    ds.length = (ds.filter fun d => d.status = "pending").length +
      ((ds.filter fun d => d.status = "sent").length +
        (ds.filter fun d => d.status = "failed").length) := by
  induction ds with
  | nil => simp
  | cons d rest ih =>
      have hd := h d (by simp)
      have hr := ih fun d' hd' => h d' (List.mem_cons_of_mem _ hd')
      rcases hd with h1 | h1 | h1 <;>
        simp [List.filter_cons, h1, hr] <;> omega

theorem actualCounts_congr {s s' : Store} {cid : Nat}
    (h : deliveriesOf s' cid = deliveriesOf s cid) :
    actualCounts s' cid = actualCounts s cid := by
  simp [actualCounts, h]

theorem mkDelivery_campaign_id {profiles : List (Nat × Profile)} {cid : Nat}
    {sched : String} {rid : Nat} :
    (mkDelivery profiles cid sched rid).campaign_id = cid := rfl

theorem mkDelivery_status {profiles : List (Nat × Profile)} {cid : Nat}
    {sched : String} {rid : Nat} :
    (mkDelivery profiles cid sched rid).status = "pending" := rfl

theorem mkDelivery_error {profiles : List (Nat × Profile)} {cid : Nat}
    {sched : String} {rid : Nat} :
    (mkDelivery profiles cid sched rid).error = none := rfl

theorem mkDelivery_schedule_time {profiles : List (Nat × Profile)} {cid : Nat}
    {sched : String} {rid : Nat} :
    (mkDelivery profiles cid sched rid).schedule_time = sched := rfl

theorem ext_snd_of_mem {profiles : List (Nat × Profile)} {cid : Nat} {sched : String}
    {rids : List Nat} {ext : List (Nat × Delivery)}
    (hm : ext.map Prod.snd = rids.map (mkDelivery profiles cid sched))
    {q : Nat × Delivery} (hq : q ∈ ext) :
    ∃ rid ∈ rids, q.2 = mkDelivery profiles cid sched rid := by
  have h1 : q.2 ∈ ext.map Prod.snd := List.mem_map_of_mem _ hq
  rw [hm] at h1
  rcases List.mem_map.mp h1 with ⟨rid, hrid, he⟩
  exact ⟨rid, hrid, he.symm⟩

theorem inv_schedule (s : Store) (hInv : Inv s) (subject body : String)
    (recipients : List Nat) (sched : String) (sig : Bool) (atts : List String)
    (rem : Option String) (html : Bool) :
    Inv (schedule_email s subject body recipients sched sig atts rem html).1 := by
  obtain ⟨ndE, ndD, ref, dstat, derr, cagg, cstat⟩ := hInv
  obtain ⟨ext, he, hm, hge, hnd⟩ :=
    insertDeliveries_spec s.profiles (nextId s.emails) sched recipients s.deliveries
  set cid := nextId s.emails with hcid
  -- every inserted row is a fresh pending delivery of the new campaign
  have hext : ∀ q ∈ ext, q.2.campaign_id = cid ∧ q.2.status = "pending" ∧
      q.2.error = none ∧ q.2.schedule_time = sched := by
    intro q hq
    obtain ⟨rid, _, hq2⟩ := ext_snd_of_mem hm hq
    rw [hq2]
    exact ⟨mkDelivery_campaign_id, mkDelivery_status, mkDelivery_error,
      mkDelivery_schedule_time⟩
  -- no existing delivery references the fresh campaign id
  have hold : ∀ q ∈ s.deliveries, q.2.campaign_id ≠ cid := by
    intro q hq hc
    exact nextId_not_mem (hc ▸ ref q hq)
  set camp : Campaign :=
    { subject := subject
      body := body
      body_is_html := html
      recipients := recipients
      status := "scheduled"
      schedule_time := sched
      sent_time := none
      reminder_date := rem
      add_signature := sig
      attachments := atts
      counts := ⟨recipients.length, recipients.length, 0, 0⟩ } with hcamp
  have hs1 : (schedule_email s subject body recipients sched sig atts rem html).1 =
      { s with emails := s.emails ++ [(cid, camp)], deliveries := s.deliveries ++ ext } := by
    simp [schedule_email, ← hcid, ← hcamp, he]
  rw [hs1]
  set s' : Store :=
    { s with emails := s.emails ++ [(cid, camp)], deliveries := s.deliveries ++ ext }
    with hs'
  -- deliveries of old campaigns are unchanged; the new campaign owns ext
  have hdOld : ∀ cid', cid' ≠ cid → deliveriesOf s' cid' = deliveriesOf s cid' := by
    intro cid' hne
    show ((s.deliveries ++ ext).filter fun p => p.2.campaign_id = cid').map Prod.snd = _
    rw [List.filter_append]
    have : ext.filter (fun p => p.2.campaign_id = cid') = [] := by
      rw [List.filter_eq_nil_iff]
      intro q hq
      simp [(hext q hq).1, hne.symm]
    rw [this, List.append_nil]
    rfl
  have hdNew : deliveriesOf s' cid = ext.map Prod.snd := by
    show ((s.deliveries ++ ext).filter fun p => p.2.campaign_id = cid).map Prod.snd = _
    rw [List.filter_append]
    have h1 : s.deliveries.filter (fun p => p.2.campaign_id = cid) = [] := by
      rw [List.filter_eq_nil_iff]
      intro q hq
      simp [hold q hq]
    have h2 : ext.filter (fun p => p.2.campaign_id = cid) = ext := by
      rw [List.filter_eq_self]
      intro q hq
      simp [(hext q hq).1]
    rw [h1, h2]
    rfl
  have hcountsNew : actualCounts s' cid = ⟨recipients.length, recipients.length, 0, 0⟩ := by
    have hall : ∀ d ∈ deliveriesOf s' cid, d.status = "pending" := by
      intro d hd
      rw [hdNew] at hd
      rcases List.mem_map.mp hd with ⟨q, hq, hqd⟩
      rw [← hqd]
      exact (hext q hq).2.1
    have hlen : (deliveriesOf s' cid).length = recipients.length := by
      rw [hdNew, List.length_map, ← List.length_map ext Prod.snd, hm, List.length_map]
    have hpend : (deliveriesOf s' cid).filter (fun d => d.status = "pending") =
        deliveriesOf s' cid := by
      rw [List.filter_eq_self]
      intro d hd
      simp [hall d hd]
    have hsent : (deliveriesOf s' cid).filter (fun d => d.status = "sent") = [] := by
      rw [List.filter_eq_nil_iff]
      intro d hd
      simp [hall d hd]
    have hfail : (deliveriesOf s' cid).filter (fun d => d.status = "failed") = [] := by
      rw [List.filter_eq_nil_iff]
      intro d hd
      simp [hall d hd]
    simp [actualCounts, hpend, hsent, hfail, hlen]
  have hmemE : ∀ p, p ∈ s'.emails → p ∈ s.emails ∨ p = (cid, camp) := by
    intro p hp
    rcases List.mem_append.mp hp with h | h
    · exact Or.inl h
    · exact Or.inr (List.mem_singleton.mp h)
  refine ⟨?_, ?_, ?_, ?_, ?_, ?_, ?_⟩
  · -- emails keys nodup
    show (keysOf (s.emails ++ [(cid, camp)])).Nodup
    rw [keysOf_append, List.nodup_append]
    refine ⟨ndE, by simp [keysOf], ?_⟩
    intro i hi hj
    have : i = cid := by simpa [keysOf] using hj
    exact nextId_not_mem (this ▸ hi)
  · -- deliveries keys nodup
    show (keysOf (s.deliveries ++ ext)).Nodup
    rw [keysOf_append, List.nodup_append]
    refine ⟨ndD, hnd, ?_⟩
    intro i hi hj
    rcases mem_keysOf.mp hi with ⟨a, ha⟩
    rcases mem_keysOf.mp hj with ⟨b, hb⟩
    have h1 := lt_nextId ha
    have h2 := hge (i, b) hb
    exact absurd h2 (by omega)
  · -- every delivery references an existing campaign
    intro p hp
    show p.2.campaign_id ∈ keysOf (s.emails ++ [(cid, camp)])
    rw [keysOf_append, List.mem_append]
    rcases List.mem_append.mp hp with h | h
    · exact Or.inl (ref p h)
    · right
      simp [keysOf, (hext p h).1]
  · -- delivery statuses
    intro p hp
    rcases List.mem_append.mp hp with h | h
    · exact dstat p h
    · exact Or.inl (hext p h).2.1
  · -- error iff failed
    intro p hp
    rcases List.mem_append.mp hp with h | h
    · exact derr p h
    · rw [(hext p h).2.2.1, (hext p h).2.1]
      simp
  · -- counts accurate
    intro p hp
    rcases hmemE p hp with h | h
    · have hne : p.1 ≠ cid := by
        intro e
        have hk : p.1 ∈ keysOf s.emails := List.mem_map_of_mem Prod.fst h
        exact nextId_not_mem (e ▸ hk)
      rw [actualCounts_congr (hdOld p.1 hne)]
      exact cagg p h
    · rw [h]
      show camp.counts = actualCounts s' cid
      rw [hcountsNew]
  · -- status matches counts
    intro p hp
    rcases hmemE p hp with h | h
    · have hne : p.1 ≠ cid := by
        intro e
        have hk : p.1 ∈ keysOf s.emails := List.mem_map_of_mem Prod.fst h
        exact nextId_not_mem (e ▸ hk)
      rw [actualCounts_congr (hdOld p.1 hne)]
      exact cstat p h
    · rw [h]
      show _ ∧ _ ∧ _
      rw [hcountsNew]
      refine ⟨fun _ => rfl, fun _ => rfl, ?_⟩
      intro h0 hpos
      simp only at h0 hpos
      omega

theorem key_unique {tbl : List (Nat × α)} (hnd : (keysOf tbl).Nodup)
    {i : Nat} {a b : α} (ha : (i, a) ∈ tbl) (hb : (i, b) ∈ tbl) : a = b := by
  have h1 := getRow_eq_some_of_mem hnd ha
  have h2 := getRow_eq_some_of_mem hnd hb
  rw [h1] at h2
  exact Option.some.inj h2

theorem length_filter_split {l : List α} (p : α → Bool) :
    (l.filter p).length + (l.filter fun a => !(p a)).length = l.length := by
  induction l with
  | nil => simp
  | cons x xs ih =>
      by_cases hx : p x = true <;>
        simp [List.filter_cons, hx, ← ih] <;> omega

theorem filter_updateRow {tbl : List (Nat × Delivery)} {i : Nat}
    {f : Delivery → Delivery} (hf : ∀ d, (f d).campaign_id = d.campaign_id)
    (cid : Nat) :
    (updateRow tbl i f).filter (fun p => p.2.campaign_id = cid) =
      updateRow (tbl.filter fun p => p.2.campaign_id = cid) i f := by
  induction tbl with
  | nil => rfl
  | cons p rest ih =>
      by_cases hp : p.1 = i <;> by_cases hc : p.2.campaign_id = cid <;>
        simp [updateRow, List.filter_cons, hp, hc, hf] at ih ⊢ <;> exact ih

theorem pendingCount_updateRow_le {l : List (Nat × Delivery)} {i : Nat}
    {f : Delivery → Delivery} (hf : ∀ d, ¬((f d).status = "pending")) :
    (((updateRow l i f).map Prod.snd).filter fun d => d.status = "pending").length ≤
      ((l.map Prod.snd).filter fun d => d.status = "pending").length := by
  induction l with
  | nil => simp [updateRow]
  | cons p rest ih =>
      by_cases hp : p.1 = i
      · by_cases hq : p.2.status = "pending" <;>
          simp [updateRow, List.filter_cons, hp, hq, hf] at ih ⊢ <;> omega
      · by_cases hq : p.2.status = "pending" <;>
          simp [updateRow, List.filter_cons, hp, hq] at ih ⊢ <;> omega

theorem length_updateRow {tbl : List (Nat × α)} {i : Nat} {f : α → α} :
    (updateRow tbl i f).length = tbl.length := by
  simp [updateRow]

theorem removeRows_filter_eq {tbl : List (Nat × Delivery)}
    (hnd : (keysOf tbl).Nodup) (Q : Nat × Delivery → Bool) :
    removeRows tbl (keysOf (tbl.filter Q)) = tbl.filter fun p => !(Q p) := by
  unfold removeRows
  apply List.filter_congr
  intro p hp
  congr 1
  by_cases hq : Q p = true
  · rw [hq]
    exact List.elem_eq_true_of_mem
      (List.mem_map.mpr ⟨p, List.mem_filter.mpr ⟨hp, hq⟩, rfl⟩)
  · rw [eq_false_of_ne_true hq]
    rw [← Bool.not_eq_true]
    intro hcontra
    rcases mem_keysOf.mp (List.mem_of_elem_eq_true hcontra) with ⟨b, hb⟩
    have hb1 := List.mem_filter.mp hb
    have hbp : b = p.2 := key_unique hnd hb1.1 hp
    rw [hbp] at hb1
    exact hq hb1.2

/-- The effect of recompute_campaign_aggregates written with the derived
notions: a patch of the campaign row driven by the rescanned counts. -/
theorem recompute_def (s : Store) (now : String) (cid : Nat) :
    recompute_campaign_aggregates s now cid =
      Store.mk s.profiles
        (updateRow s.emails cid
          (if (actualCounts s cid).pending = 0 then
            if (actualCounts s cid).total = 0 then
              fun c => { c with counts := actualCounts s cid }
            else
              fun c =>
                { c with
                  counts := actualCounts s cid
                  status := aggStatus (actualCounts s cid)
                  sent_time := some now }
          else fun c => { c with counts := actualCounts s cid }))
        s.deliveries := rfl

theorem deliveriesOf_recompute {s : Store} {now : String} {cid cid' : Nat} :
    deliveriesOf (recompute_campaign_aggregates s now cid) cid' = deliveriesOf s cid' := rfl

theorem actualCounts_set_emails {s : Store} {E : List (Nat × Campaign)} {x : Nat} :
    actualCounts { s with emails := E } x = actualCounts s x := rfl

theorem mem_updateRow_cases {tbl : List (Nat × α)} {i : Nat} {f : α → α}
    {q : Nat × α} (hq : q ∈ updateRow tbl i f) :
    (q.1 ≠ i ∧ q ∈ tbl) ∨ ∃ a, (i, a) ∈ tbl ∧ q = (i, f a) := by
  rcases mem_updateRow.mp hq with ⟨p, hp, hqe⟩
  by_cases hpc : p.1 = i
  · right
    exact ⟨p.2, by rw [← hpc]; exact hp, by rw [hqe]; simp [hpc]⟩
  · left
    rw [hqe]
    simp [hpc]
    exact hp

/-- Preservation of the invariant by a campaign-row patch that installs
the rescanned counts and a status compatible with them. -/
theorem inv_emails_update (s : Store) (cid : Nat) (f : Campaign → Campaign)
    (ndE : (keysOf s.emails).Nodup) (ndD : (keysOf s.deliveries).Nodup)
    (ref : ∀ p ∈ s.deliveries, p.2.campaign_id ∈ keysOf s.emails)
    (dstat : ∀ p ∈ s.deliveries,
      p.2.status = "pending" ∨ p.2.status = "sent" ∨ p.2.status = "failed")
    (derr : ∀ p ∈ s.deliveries, (p.2.error ≠ none ↔ p.2.status = "failed"))
    (hOld : ∀ p ∈ s.emails, p.1 ≠ cid →
      p.2.counts = actualCounts s p.1 ∧
      ((actualCounts s p.1).total = 0 → p.2.status = "scheduled") ∧
      (0 < (actualCounts s p.1).pending → p.2.status = "scheduled") ∧
      ((actualCounts s p.1).pending = 0 → 0 < (actualCounts s p.1).total →
        p.2.status = aggStatus (actualCounts s p.1)))
    (hfCounts : ∀ c, (f c).counts = actualCounts s cid)
    (hfStatus : ∀ c, (cid, c) ∈ s.emails →
      ((actualCounts s cid).total = 0 → (f c).status = "scheduled") ∧
      (0 < (actualCounts s cid).pending → (f c).status = "scheduled") ∧
      ((actualCounts s cid).pending = 0 → 0 < (actualCounts s cid).total →
        (f c).status = aggStatus (actualCounts s cid))) :
    Inv { s with emails := updateRow s.emails cid f } := by
  refine ⟨?_, ndD, ?_, dstat, derr, ?_, ?_⟩
  · show (keysOf (updateRow s.emails cid f)).Nodup
    rw [keysOf_updateRow]
    exact ndE
  · intro p hp
    show p.2.campaign_id ∈ keysOf (updateRow s.emails cid f)
    rw [keysOf_updateRow]
    exact ref p hp
  · intro q hq
    rw [actualCounts_set_emails]
    rcases mem_updateRow_cases hq with ⟨hne, hmem⟩ | ⟨c, hc, hqe⟩
    · exact (hOld q hmem hne).1
    · rw [hqe]
      exact hfCounts c
  · intro q hq
    rw [actualCounts_set_emails, actualCounts_set_emails, actualCounts_set_emails]
    rcases mem_updateRow_cases hq with ⟨hne, hmem⟩ | ⟨c, hc, hqe⟩
    · exact (hOld q hmem hne).2
    · rw [hqe]
      exact hfStatus c hc

/-- Generic preservation of the invariant by an aggregate recomputation:
the store already satisfies every component except possibly the
counts/status components at the recomputed campaign, for which it is
enough that the campaign was scheduled whenever the rescan still finds a
pending delivery or finds no delivery at all. -/
theorem inv_recompute (s : Store) (now : String) (cid : Nat)
    (ndE : (keysOf s.emails).Nodup) (ndD : (keysOf s.deliveries).Nodup)
    (ref : ∀ p ∈ s.deliveries, p.2.campaign_id ∈ keysOf s.emails)
    (dstat : ∀ p ∈ s.deliveries,
      p.2.status = "pending" ∨ p.2.status = "sent" ∨ p.2.status = "failed")
    (derr : ∀ p ∈ s.deliveries, (p.2.error ≠ none ↔ p.2.status = "failed"))
    (hOld : ∀ p ∈ s.emails, p.1 ≠ cid →
      p.2.counts = actualCounts s p.1 ∧
      ((actualCounts s p.1).total = 0 → p.2.status = "scheduled") ∧
      (0 < (actualCounts s p.1).pending → p.2.status = "scheduled") ∧
      ((actualCounts s p.1).pending = 0 → 0 < (actualCounts s p.1).total →
        p.2.status = aggStatus (actualCounts s p.1)))
    (hSch : 0 < (actualCounts s cid).pending →
      ∀ c, (cid, c) ∈ s.emails → c.status = "scheduled")
    (hTot : (actualCounts s cid).total = 0 →
      ∀ c, (cid, c) ∈ s.emails → c.status = "scheduled") :
    Inv (recompute_campaign_aggregates s now cid) := by
  have hpend_le_tot : (actualCounts s cid).pending ≤ (actualCounts s cid).total :=
    List.length_filter_le _ _
  rw [recompute_def]
  by_cases h0 : (actualCounts s cid).pending = 0
  · by_cases h1 : (actualCounts s cid).total = 0
    · rw [if_pos h0, if_pos h1]
      refine inv_emails_update s cid _ ndE ndD ref dstat derr hOld (fun c => rfl) ?_
      intro c hc
      exact ⟨fun _ => hTot h1 c hc, fun h => by omega, fun _ h => by omega⟩
    · rw [if_pos h0, if_neg h1]
      refine inv_emails_update s cid _ ndE ndD ref dstat derr hOld (fun c => rfl) ?_
      intro c hc
      exact ⟨fun h => absurd h h1, fun h => by omega, fun _ _ => rfl⟩
  · rw [if_neg h0]
    refine inv_emails_update s cid _ ndE ndD ref dstat derr hOld (fun c => rfl) ?_
    intro c hc
    have hp0 : 0 < (actualCounts s cid).pending := Nat.pos_of_ne_zero h0
    exact ⟨fun h => absurd hpend_le_tot (by omega), fun _ => hSch hp0 c hc,
      fun h _ => absurd h h0⟩

theorem deliveryPatch_campaign_id {now st : String} {e rb : Option String}
    {d : Delivery} : (deliveryPatch now st e rb d).campaign_id = d.campaign_id := by
  unfold deliveryPatch
  by_cases h : st = "sent" <;> simp [h]

theorem deliveryPatch_schedule_time {now st : String} {e rb : Option String}
    {d : Delivery} : (deliveryPatch now st e rb d).schedule_time = d.schedule_time := by
  unfold deliveryPatch
  by_cases h : st = "sent" <;> simp [h]

theorem deliveryPatch_status {now st : String} {e rb : Option String}
    {d : Delivery} : (deliveryPatch now st e rb d).status = st := by
  unfold deliveryPatch
  by_cases h : st = "sent" <;> simp [h]

theorem deliveryPatch_error_sent {now : String} {e rb : Option String}
    {d : Delivery} : (deliveryPatch now "sent" e rb d).error = none := by
  simp [deliveryPatch]

theorem deliveryPatch_error_ne {now st : String} {e rb : Option String}
    {d : Delivery} (h : ¬(st = "sent")) : (deliveryPatch now st e rb d).error ≠ none := by
  unfold deliveryPatch
  rw [if_neg h]
  cases e with
  | none => simp
  | some v => by_cases hv : v = "" <;> simp [hv]

theorem filter_updateRow_ne {tbl : List (Nat × Delivery)} (ndD : (keysOf tbl).Nodup)
    {id : Nat} {d0 : Delivery} (hd0 : (id, d0) ∈ tbl)
    {f : Delivery → Delivery} (hf : ∀ d, (f d).campaign_id = d.campaign_id)
    {x : Nat} (hx : x ≠ d0.campaign_id) :
    (updateRow tbl id f).filter (fun p => p.2.campaign_id = x) =
      tbl.filter (fun p => p.2.campaign_id = x) := by
  rw [filter_updateRow hf]
  apply updateRow_of_not_mem
  intro hmem
  rcases mem_keysOf.mp hmem with ⟨b, hb⟩
  have hb' := List.mem_filter.mp hb
  have hbd : b = d0 := key_unique ndD hb'.1 hd0
  rw [hbd] at hb'
  have : d0.campaign_id = x := by simpa using hb'.2
  exact hx this.symm

theorem deliveriesOf_updateRow (s : Store) (E : List (Nat × Campaign)) (id : Nat)
    (f : Delivery → Delivery) (hf : ∀ d, (f d).campaign_id = d.campaign_id) (x : Nat) :
    deliveriesOf (Store.mk s.profiles E (updateRow s.deliveries id f)) x =
      (updateRow (s.deliveries.filter fun p => p.2.campaign_id = x) id f).map Prod.snd := by
  show ((updateRow s.deliveries id f).filter fun p => p.2.campaign_id = x).map Prod.snd = _
  rw [filter_updateRow hf]

theorem actualCounts_expand (s : Store) (x : Nat) :
    actualCounts s x = Counts.mk (deliveriesOf s x).length
      ((deliveriesOf s x).filter fun d => d.status = "pending").length
      ((deliveriesOf s x).filter fun d => d.status = "sent").length
      ((deliveriesOf s x).filter fun d => d.status = "failed").length := rfl

theorem actualCounts_congr_mk {s : Store} {E : List (Nat × Campaign)}
    {D : List (Nat × Delivery)} {x : Nat}
    (h : deliveriesOf (Store.mk s.profiles E D) x = deliveriesOf s x) :
    actualCounts (Store.mk s.profiles E D) x = actualCounts s x := by
  rw [actualCounts_expand, actualCounts_expand, h]

theorem inv_update (s : Store) (hInv : Inv s) (now : String) (id : Nat)
    (st : String) (error rb : Option String)
    (hst : st = "sent" ∨ st = "failed") :
    Inv (update_delivery_status s now id st error rb) := by
  obtain ⟨ndE, ndD, ref, dstat, derr, cagg, cstat⟩ := hInv
  have hfcamp : ∀ d, (deliveryPatch now st error rb d).campaign_id = d.campaign_id :=
    fun _ => deliveryPatch_campaign_id
  have hfnp : ∀ d, ¬((deliveryPatch now st error rb d).status = "pending") := by
    intro d
    rw [deliveryPatch_status]
    rcases hst with h | h <;> simp [h]
  simp only [update_delivery_status]
  split
  case h_1 hget =>
    have hid : id ∉ keysOf s.deliveries := by
      have h := getRow_eq_none_iff.mp hget
      rwa [keysOf_updateRow] at h
    rw [updateRow_of_not_mem hid]
    exact ⟨ndE, ndD, ref, dstat, derr, cagg, cstat⟩
  case h_2 d' hget =>
    have hmem' : (id, d') ∈ updateRow s.deliveries id (deliveryPatch now st error rb) :=
      mem_of_getRow_eq_some hget
    rcases mem_updateRow_cases hmem' with ⟨hne, _⟩ | ⟨d0, hd0, hde⟩
    · exact absurd rfl hne
    · have hd' : d' = deliveryPatch now st error rb d0 := by
        simpa using congrArg Prod.snd hde
      have hcid : d'.campaign_id = d0.campaign_id := by
        rw [hd']
        exact deliveryPatch_campaign_id
      rw [hcid]
      have hsame : ∀ x, x ≠ d0.campaign_id →
          actualCounts (Store.mk s.profiles s.emails
            (updateRow s.deliveries id (deliveryPatch now st error rb))) x =
            actualCounts s x := by
        intro x hx
        apply actualCounts_congr_mk
        show ((updateRow s.deliveries id (deliveryPatch now st error rb)).filter
          (fun p => p.2.campaign_id = x)).map Prod.snd = _
        rw [filter_updateRow_ne ndD hd0 hfcamp hx]
        rfl
      have hple : (actualCounts (Store.mk s.profiles s.emails
            (updateRow s.deliveries id (deliveryPatch now st error rb)))
            d0.campaign_id).pending ≤ (actualCounts s d0.campaign_id).pending := by
        rw [actualCounts_expand, actualCounts_expand,
          deliveriesOf_updateRow s s.emails id _ hfcamp]
        exact pendingCount_updateRow_le hfnp
      have htoteq : (actualCounts (Store.mk s.profiles s.emails
            (updateRow s.deliveries id (deliveryPatch now st error rb)))
            d0.campaign_id).total = (actualCounts s d0.campaign_id).total := by
        rw [actualCounts_expand, actualCounts_expand,
          deliveriesOf_updateRow s s.emails id _ hfcamp]
        simp [updateRow, deliveriesOf]
      apply inv_recompute
      · exact ndE
      · show (keysOf (updateRow s.deliveries id (deliveryPatch now st error rb))).Nodup
        rw [keysOf_updateRow]
        exact ndD
      · intro p hp
        rcases mem_updateRow_cases hp with ⟨_, hmem⟩ | ⟨b, hb, hpe⟩
        · exact ref p hmem
        · show p.2.campaign_id ∈ keysOf s.emails
          rw [hpe]
          show (deliveryPatch now st error rb b).campaign_id ∈ keysOf s.emails
          rw [deliveryPatch_campaign_id]
          exact ref (id, b) hb
      · intro p hp
        rcases mem_updateRow_cases hp with ⟨_, hmem⟩ | ⟨b, hb, hpe⟩
        · exact dstat p hmem
        · rw [hpe]
          show (deliveryPatch now st error rb b).status = "pending" ∨
            (deliveryPatch now st error rb b).status = "sent" ∨
            (deliveryPatch now st error rb b).status = "failed"
          rw [deliveryPatch_status]
          rcases hst with h | h
          · exact Or.inr (Or.inl h)
          · exact Or.inr (Or.inr h)
      · intro p hp
        rcases mem_updateRow_cases hp with ⟨_, hmem⟩ | ⟨b, hb, hpe⟩
        · exact derr p hmem
        · rw [hpe]
          show ((deliveryPatch now st error rb b).error ≠ none ↔
            (deliveryPatch now st error rb b).status = "failed")
          rw [deliveryPatch_status]
          rcases hst with h | h
          · subst h
            rw [deliveryPatch_error_sent]
            simp
          · subst h
            constructor
            · intro _
              rfl
            · intro _
              exact deliveryPatch_error_ne (by simp)
      · intro p hp hne
        rw [hsame p.1 hne]
        exact ⟨cagg p hp, cstat p hp⟩
      · intro hpos c hc
        have h1 : 0 < (actualCounts s d0.campaign_id).pending := by omega
        exact (cstat (d0.campaign_id, c) hc).2.1 h1
      · intro h0 c hc
        rw [htoteq] at h0
        exact (cstat (d0.campaign_id, c) hc).1 h0

theorem removeRows_map_fst_filter {tbl : List (Nat × Delivery)}
    (hnd : (keysOf tbl).Nodup) (Q : Nat × Delivery → Bool) :
    removeRows tbl ((tbl.filter Q).map Prod.fst) = tbl.filter fun p => !(Q p) :=
  removeRows_filter_eq hnd Q

theorem filter_comm_of_imp {l : List α} {p q : α → Bool}
    (h : ∀ a, p a = true → q a = true) :
    (l.filter q).filter p = l.filter p := by
  induction l with
  | nil => rfl
  | cons a as ih =>
      by_cases hp : p a = true
      · have hq := h a hp
        simp [List.filter_cons, hp, hq, ih]
      · by_cases hq : q a = true <;>
          simp [List.filter_cons, hp, hq, ih]

theorem cancel_total_split {l : List (Nat × Delivery)} {cid : Nat} :
    (l.filter fun p => p.2.campaign_id = cid).length =
      ((l.filter fun p => !(p.2.campaign_id = cid && p.2.status = "pending")).filter
        fun p => p.2.campaign_id = cid).length +
      (l.filter fun p => p.2.campaign_id = cid && p.2.status = "pending").length := by
  induction l with
  | nil => simp
  | cons p rest ih =>
      by_cases hc : p.2.campaign_id = cid <;> by_cases hp : p.2.status = "pending" <;>
        simp [List.filter_cons, hc, hp, ih] <;> omega

theorem cancel_pending_eq {l : List (Nat × Delivery)} {cid : Nat} :
    ((l.filter fun p => p.2.campaign_id = cid).filter
      fun p => p.2.status = "pending").length =
      (l.filter fun p => p.2.campaign_id = cid && p.2.status = "pending").length := by
  induction l with
  | nil => simp
  | cons p rest ih =>
      by_cases hc : p.2.campaign_id = cid <;> by_cases hp : p.2.status = "pending" <;>
        simp [List.filter_cons, hc, hp, ih, Bool.and_comm]

theorem length_filter_map_snd {l : List (Nat × Delivery)} {pred : Delivery → Bool} :
    ((l.map Prod.snd).filter pred).length = (l.filter fun p => pred p.2).length := by
  induction l with
  | nil => rfl
  | cons p rest ih =>
      by_cases hp : pred p.2 = true <;> simp [List.filter_cons, hp, ih]

/-- Deleting a campaign row that no delivery references preserves the
invariant. -/
theorem inv_delete_campaign (s : Store) (hInv : Inv s) (cid : Nat)
    (hnone : s.deliveries.filter (fun p => p.2.campaign_id = cid) = []) :
    Inv (Store.mk s.profiles (s.emails.filter fun p => p.1 ≠ cid) s.deliveries) := by
  obtain ⟨ndE, ndD, ref, dstat, derr, cagg, cstat⟩ := hInv
  have hcamp_ne : ∀ p ∈ s.deliveries, p.2.campaign_id ≠ cid := by
    intro p hp hcontra
    have : p ∈ s.deliveries.filter (fun q => q.2.campaign_id = cid) :=
      List.mem_filter.mpr ⟨hp, by simp [hcontra]⟩
    rw [hnone] at this
    cases this
  refine ⟨?_, ndD, ?_, dstat, derr, ?_, ?_⟩
  · show (keysOf (s.emails.filter fun p => p.1 ≠ cid)).Nodup
    exact ndE.sublist (List.Sublist.map Prod.fst (List.filter_sublist _))
  · intro p hp
    show p.2.campaign_id ∈ keysOf (s.emails.filter fun q => q.1 ≠ cid)
    rcases mem_keysOf.mp (ref p hp) with ⟨c, hc⟩
    apply mem_keysOf.mpr
    exact ⟨c, List.mem_filter.mpr ⟨hc, by simp [hcamp_ne p hp]⟩⟩
  · intro q hq
    exact cagg q (List.mem_filter.mp hq).1
  · intro q hq
    exact cstat q (List.mem_filter.mp hq).1

theorem inv_cancel (s : Store) (hInv : Inv s) (now : String) (cid : Nat) :
    Inv (delete_scheduled_email s now cid) := by
  obtain ⟨ndE, ndD, ref, dstat, derr, cagg, cstat⟩ := hInv
  simp only [delete_scheduled_email]
  rw [removeRows_map_fst_filter ndD]
  have hndD1 : (keysOf (s.deliveries.filter fun p =>
      !(p.2.campaign_id = cid && p.2.status = "pending"))).Nodup :=
    ndD.sublist (List.Sublist.map Prod.fst (List.filter_sublist _))
  -- counts of the target campaign after removing its pending rows
  have hdel1 : ∀ x, deliveriesOf (Store.mk s.profiles s.emails
      (s.deliveries.filter fun p =>
        !(p.2.campaign_id = cid && p.2.status = "pending"))) x =
      (((s.deliveries.filter fun p =>
        !(p.2.campaign_id = cid && p.2.status = "pending")).filter
          fun p => p.2.campaign_id = x)).map Prod.snd := fun _ => rfl
  have hpend0 : (actualCounts (Store.mk s.profiles s.emails
      (s.deliveries.filter fun p =>
        !(p.2.campaign_id = cid && p.2.status = "pending"))) cid).pending = 0 := by
    rw [actualCounts_expand]
    show (((((s.deliveries.filter fun p =>
        !(p.2.campaign_id = cid && p.2.status = "pending")).filter
          fun p => p.2.campaign_id = cid)).map Prod.snd).filter
            fun d => d.status = "pending").length = 0
    rw [length_filter_map_snd]
    rw [List.length_eq_zero, List.filter_eq_nil_iff]
    intro p hp
    have hp1 := List.mem_filter.mp hp
    have hp2 := List.mem_filter.mp hp1.1
    intro hcontra
    have hcid : p.2.campaign_id = cid := by simpa using hp1.2
    have hpend : p.2.status = "pending" := by simpa using hcontra
    have := hp2.2
    simp [hcid, hpend] at this
  have hs2 : Inv (recompute_campaign_aggregates (Store.mk s.profiles s.emails
      (s.deliveries.filter fun p =>
        !(p.2.campaign_id = cid && p.2.status = "pending"))) now cid) := by
    apply inv_recompute
    · exact ndE
    · exact hndD1
    · intro p hp
      exact ref p (List.mem_filter.mp hp).1
    · intro p hp
      exact dstat p (List.mem_filter.mp hp).1
    · intro p hp
      exact derr p (List.mem_filter.mp hp).1
    · intro p hp hne
      have hx : deliveriesOf (Store.mk s.profiles s.emails
          (s.deliveries.filter fun q =>
            !(q.2.campaign_id = cid && q.2.status = "pending"))) p.1 =
          deliveriesOf s p.1 := by
        rw [hdel1]
        show _ = (s.deliveries.filter fun q => q.2.campaign_id = p.1).map Prod.snd
        congr 1
        apply filter_comm_of_imp
        intro a ha
        have hac : a.2.campaign_id = p.1 := by simpa using ha
        simp [hac, hne]
      rw [actualCounts_congr_mk hx]
      exact ⟨cagg p hp, cstat p hp⟩
    · intro hpos c hc
      rw [hpend0] at hpos
      omega
    · intro h0 c hc
      -- no non-pending delivery remains: all old rows of the campaign were pending
      rw [actualCounts_expand] at h0
      have h0' : ((s.deliveries.filter fun p =>
          !(p.2.campaign_id = cid && p.2.status = "pending")).filter
            fun p => p.2.campaign_id = cid).length = 0 := by
        have := h0
        rw [hdel1] at this
        simpa using this
      have hsplit := @cancel_total_split s.deliveries cid
      have hpe := @cancel_pending_eq s.deliveries cid
      by_cases htot : (actualCounts s cid).total = 0
      · exact (cstat (cid, c) hc).1 htot
      · apply (cstat (cid, c) hc).2.1
        rw [actualCounts_expand] at htot ⊢
        simp only [deliveriesOf] at htot ⊢
        rw [List.length_map] at htot
        rw [length_filter_map_snd, hpe]
        omega
  split
  case isTrue hrem =>
    have hnone : (recompute_campaign_aggregates (Store.mk s.profiles s.emails
        (s.deliveries.filter fun p =>
          !(p.2.campaign_id = cid && p.2.status = "pending"))) now cid).deliveries.filter
        (fun p => p.2.campaign_id = cid) = [] := by
      rwa [← List.isEmpty_iff]
    exact inv_delete_campaign _ hs2 cid hnone
  case isFalse hrem =>
    exact hs2

theorem inv_applyOp (s : Store) (hInv : Inv s) (op : Op) : Inv (applyOp s op) := by
  cases op with
  | schedule subject body recipients sched sig atts rem html =>
      exact inv_schedule s hInv subject body recipients sched sig atts rem html
  | report now id outcome =>
      cases outcome with
      | sent rb => exact inv_update s hInv now id "sent" none rb (Or.inl rfl)
      | failed reason => exact inv_update s hInv now id "failed" reason none (Or.inr rfl)
  | cancel now cid => exact inv_cancel s hInv now cid

theorem runOps_append (s : Store) (l1 l2 : List Op) :
    runOps s (l1 ++ l2) = runOps (runOps s l1) l2 := by
  induction l1 generalizing s with
  | nil => rfl
  | cons op rest ih => exact ih (applyOp s op)

theorem inv_runOps (s : Store) (hInv : Inv s) (ops : List Op) : Inv (runOps s ops) := by
  induction ops generalizing s with
  | nil => exact hInv
  | cons op rest ih => exact ih _ (inv_applyOp s hInv op)

theorem inv_initStore (profiles : List (Nat × Profile)) : Inv (initStore profiles) := by
  refine ⟨?_, ?_, ?_, ?_, ?_, ?_, ?_⟩ <;> simp [initStore, keysOf]

theorem aggStatus_ne_scheduled {c : Counts} : aggStatus c ≠ "scheduled" := by
  unfold aggStatus
  split_ifs <;> decide

theorem statuses_partition (s : Store)
    (dstat : ∀ p ∈ s.deliveries,
      p.2.status = "pending" ∨ p.2.status = "sent" ∨ p.2.status = "failed")
    (cid : Nat) :
    (actualCounts s cid).pending + (actualCounts s cid).sent +
      (actualCounts s cid).failed = (actualCounts s cid).total := by
  have hd : ∀ d ∈ deliveriesOf s cid,
      d.status = "pending" ∨ d.status = "sent" ∨ d.status = "failed" := by
    intro d hd
    rcases List.mem_map.mp hd with ⟨p, hp, hpd⟩
    rw [← hpd]
    exact dstat p (List.mem_filter.mp hp).1
  have := length_eq_sum_status hd
  rw [actualCounts_expand]
  simp only
  omega

/-- C1: after any sequence of repository operations starting from a fresh
store, every campaign row carries a counts aggregate whose total equals
the number of delivery rows referencing the campaign, and whose pending,
sent and failed components sum to that total. -/
theorem claim_C1_counts_invariant (profiles : List (Nat × Profile)) (ops : List Op)
    (cid : Nat) (c : Campaign)
    (hmem : (cid, c) ∈ (runOps (initStore profiles) ops).emails) :
    c.counts.total = (deliveriesOf (runOps (initStore profiles) ops) cid).length ∧
    c.counts.pending + c.counts.sent + c.counts.failed = c.counts.total := by
  obtain ⟨_, _, _, dstat, _, cagg, _⟩ :=
    inv_runOps (initStore profiles) (inv_initStore profiles) ops
  have hc := cagg (cid, c) hmem
  have hsum := statuses_partition (runOps (initStore profiles) ops) dstat cid
  constructor
  · rw [hc, actualCounts_expand]
  · rw [hc]
    exact hsum

/-- C1 witness: a concrete two-recipient campaign with one reported
outcome satisfies the counts invariant. -/
theorem claim_C1_counts_invariant_witness :
    ((1, Campaign.mk "s" "b" false [1, 2] "scheduled" "t" none none true []
        (Counts.mk 2 1 1 0)) ∈
      (runOps (initStore []) [Op.schedule "s" "b" [1, 2] "t" true [] none false,
        Op.report "n" 1 (Outcome.sent none)]).emails) ∧
    ((Campaign.mk "s" "b" false [1, 2] "scheduled" "t" none none true []
        (Counts.mk 2 1 1 0)).counts.total =
      (deliveriesOf (runOps (initStore [])
        [Op.schedule "s" "b" [1, 2] "t" true [] none false,
          Op.report "n" 1 (Outcome.sent none)]) 1).length ∧
      (Campaign.mk "s" "b" false [1, 2] "scheduled" "t" none none true []
        (Counts.mk 2 1 1 0)).counts.pending +
        (Campaign.mk "s" "b" false [1, 2] "scheduled" "t" none none true []
          (Counts.mk 2 1 1 0)).counts.sent +
        (Campaign.mk "s" "b" false [1, 2] "scheduled" "t" none none true []
          (Counts.mk 2 1 1 0)).counts.failed =
        (Campaign.mk "s" "b" false [1, 2] "scheduled" "t" none none true []
          (Counts.mk 2 1 1 0)).counts.total) :=
  ⟨by decide, claim_C1_counts_invariant []
    [Op.schedule "s" "b" [1, 2] "t" true [] none false,
      Op.report "n" 1 (Outcome.sent none)] 1
    (Campaign.mk "s" "b" false [1, 2] "scheduled" "t" none none true []
      (Counts.mk 2 1 1 0)) (by decide)⟩

/-- C2 counterexample: a campaign scheduled with an empty recipient list
has pending equal to zero yet keeps status scheduled, contradicting the
claim that the status is never scheduled when pending is zero. -/
theorem claim_C2_counterexample :
    (1, Campaign.mk "s" "b" false [] "scheduled" "t" none none true []
        (Counts.mk 0 0 0 0)) ∈
      (runOps (initStore []) [Op.schedule "s" "b" [] "t" true [] none false]).emails ∧
    (Counts.mk 0 0 0 0).pending = 0 ∧
    (Campaign.mk "s" "b" false [] "scheduled" "t" none none true []
      (Counts.mk 0 0 0 0)).status = "scheduled" := by
  refine ⟨by decide, rfl, rfl⟩

/-- C2 amended: the status formula of the spec holds for every campaign
that owns at least one delivery; a campaign scheduled with an empty
recipient list is the exception, keeping status scheduled with total and
pending both zero. -/
theorem claim_C2_status_formula (profiles : List (Nat × Profile)) (ops : List Op)
    (cid : Nat) (c : Campaign)
    (hmem : (cid, c) ∈ (runOps (initStore profiles) ops).emails) :
    (c.counts.total = 0 → c.status = "scheduled") ∧
    (0 < c.counts.total →
      ((c.status = "scheduled" ↔ 0 < c.counts.pending) ∧
       (c.status = "sent" ↔ c.counts.pending = 0 ∧ c.counts.failed = 0 ∧
          c.counts.sent = c.counts.total) ∧
       (c.status = "failed" ↔ c.counts.pending = 0 ∧ c.counts.sent = 0 ∧
          c.counts.failed = c.counts.total) ∧
       (c.status = "partial" ↔ c.counts.pending = 0 ∧ 0 < c.counts.sent ∧
          0 < c.counts.failed))) := by
  obtain ⟨_, _, _, dstat, _, cagg, cstat⟩ :=
    inv_runOps (initStore profiles) (inv_initStore profiles) ops
  have hc : c.counts = actualCounts (runOps (initStore profiles) ops) cid :=
    cagg (cid, c) hmem
  obtain ⟨h0a, hposa, hforma⟩ := cstat (cid, c) hmem
  have h0 : c.counts.total = 0 → c.status = "scheduled" := by
    rw [hc]
    exact h0a
  have hpos : 0 < c.counts.pending → c.status = "scheduled" := by
    rw [hc]
    exact hposa
  have hform : c.counts.pending = 0 → 0 < c.counts.total →
      c.status = aggStatus c.counts := by
    rw [hc]
    exact hforma
  have hsum : c.counts.pending + c.counts.sent + c.counts.failed = c.counts.total := by
    rw [hc]
    exact statuses_partition (runOps (initStore profiles) ops) dstat cid
  clear hc h0a hposa hforma cagg cstat dstat hmem
  refine ⟨h0, ?_⟩
  intro htot
  by_cases hp0 : c.counts.pending = 0
  · have hstat := hform hp0 htot
    unfold aggStatus at hstat
    by_cases hs : c.counts.sent = c.counts.total
    · rw [if_pos hs] at hstat
      rw [hstat]
      refine ⟨?_, ?_, ?_, ?_⟩
      · constructor
        · intro h
          exact absurd h (by decide)
        · intro h
          omega
      · constructor
        · intro _
          refine ⟨hp0, by omega, hs⟩
        · intro _
          rfl
      · constructor
        · intro h
          exact absurd h (by decide)
        · intro h
          omega
      · constructor
        · intro h
          exact absurd h (by decide)
        · intro h
          omega
    · rw [if_neg hs] at hstat
      by_cases hf : c.counts.failed = c.counts.total
      · rw [if_pos hf] at hstat
        rw [hstat]
        refine ⟨?_, ?_, ?_, ?_⟩
        · constructor
          · intro h
            exact absurd h (by decide)
          · intro h
            omega
        · constructor
          · intro h
            exact absurd h (by decide)
          · intro h
            omega
        · constructor
          · intro _
            refine ⟨hp0, by omega, hf⟩
          · intro _
            rfl
        · constructor
          · intro h
            exact absurd h (by decide)
          · intro h
            omega
      · rw [if_neg hf] at hstat
        rw [hstat]
        refine ⟨?_, ?_, ?_, ?_⟩
        · constructor
          · intro h
            exact absurd h (by decide)
          · intro h
            omega
        · constructor
          · intro h
            exact absurd h (by decide)
          · intro h
            exact absurd h.2.2 hs
        · constructor
          · intro h
            exact absurd h (by decide)
          · intro h
            omega
        · constructor
          · intro _
            refine ⟨hp0, by omega, by omega⟩
          · intro _
            rfl
  · have hsched := hpos (Nat.pos_of_ne_zero hp0)
    rw [hsched]
    refine ⟨?_, ?_, ?_, ?_⟩
    · constructor
      · intro _
        exact Nat.pos_of_ne_zero hp0
      · intro _
        rfl
    · constructor
      · intro h
        exact absurd h (by decide)
      · intro h
        exact absurd h.1 hp0
    · constructor
      · intro h
        exact absurd h (by decide)
      · intro h
        exact absurd h.1 hp0
    · constructor
      · intro h
        exact absurd h (by decide)
      · intro h
        exact absurd h.1 hp0

/-- C2 witness: the amended formula instantiated on a scheduled, then
partially failed, two-recipient campaign. -/
theorem claim_C2_status_formula_witness :
    ((1, Campaign.mk "s" "b" false [1, 2] "partial" "t" (some "n2") none true []
        (Counts.mk 2 0 1 1)) ∈
      (runOps (initStore []) [Op.schedule "s" "b" [1, 2] "t" true [] none false,
        Op.report "n1" 1 (Outcome.sent none),
        Op.report "n2" 2 (Outcome.failed none)]).emails) ∧
    (((Campaign.mk "s" "b" false [1, 2] "partial" "t" (some "n2") none true []
        (Counts.mk 2 0 1 1)).counts.total = 0 →
      (Campaign.mk "s" "b" false [1, 2] "partial" "t" (some "n2") none true []
        (Counts.mk 2 0 1 1)).status = "scheduled") ∧
      (0 < (Campaign.mk "s" "b" false [1, 2] "partial" "t" (some "n2") none true []
          (Counts.mk 2 0 1 1)).counts.total →
        (((Campaign.mk "s" "b" false [1, 2] "partial" "t" (some "n2") none true []
            (Counts.mk 2 0 1 1)).status = "scheduled" ↔
          0 < (Counts.mk 2 0 1 1).pending) ∧
         ((Campaign.mk "s" "b" false [1, 2] "partial" "t" (some "n2") none true []
            (Counts.mk 2 0 1 1)).status = "sent" ↔
          (Counts.mk 2 0 1 1).pending = 0 ∧ (Counts.mk 2 0 1 1).failed = 0 ∧
            (Counts.mk 2 0 1 1).sent = (Counts.mk 2 0 1 1).total) ∧
         ((Campaign.mk "s" "b" false [1, 2] "partial" "t" (some "n2") none true []
            (Counts.mk 2 0 1 1)).status = "failed" ↔
          (Counts.mk 2 0 1 1).pending = 0 ∧ (Counts.mk 2 0 1 1).sent = 0 ∧
            (Counts.mk 2 0 1 1).failed = (Counts.mk 2 0 1 1).total) ∧
         ((Campaign.mk "s" "b" false [1, 2] "partial" "t" (some "n2") none true []
            (Counts.mk 2 0 1 1)).status = "partial" ↔
          (Counts.mk 2 0 1 1).pending = 0 ∧ 0 < (Counts.mk 2 0 1 1).sent ∧
            0 < (Counts.mk 2 0 1 1).failed)))) :=
  ⟨by decide, claim_C2_status_formula []
    [Op.schedule "s" "b" [1, 2] "t" true [] none false,
      Op.report "n1" 1 (Outcome.sent none),
      Op.report "n2" 2 (Outcome.failed none)] 1
    (Campaign.mk "s" "b" false [1, 2] "partial" "t" (some "n2") none true []
      (Counts.mk 2 0 1 1)) (by decide)⟩

/-- C9: after any operation sequence the error field of a delivery is
populated exactly when its status is failed; a failure reported with a
missing or empty reason is recorded as send_error, and a sent outcome
resets the error to none. -/
theorem claim_C9_error_iff_failed (profiles : List (Nat × Profile)) (ops : List Op)
    (i : Nat) (d : Delivery)
    (hmem : (i, d) ∈ (runOps (initStore profiles) ops).deliveries) :
    (d.error ≠ none ↔ d.status = "failed") ∧
    (∀ (now : String) (reason rb : Option String) (d0 : Delivery),
      reason = none ∨ reason = some "" →
      (deliveryPatch now "failed" reason rb d0).error = some "send_error") ∧
    (∀ (now : String) (e rb : Option String) (d0 : Delivery),
      (deliveryPatch now "sent" e rb d0).error = none) := by
  obtain ⟨_, _, _, _, derr, _, _⟩ :=
    inv_runOps (initStore profiles) (inv_initStore profiles) ops
  refine ⟨derr (i, d) hmem, ?_, ?_⟩
  · intro now reason rb d0 hr
    rcases hr with h | h <;> subst h <;> simp [deliveryPatch]
  · intro now e rb d0
    exact deliveryPatch_error_sent

/-- C9 witness: the invariant and both substitution behaviors at a
concrete failed delivery. -/
theorem claim_C9_error_iff_failed_witness :
    ((1, Delivery.mk 1 7 none (Snapshot.mk none none none none) "failed"
        (some "send_error") "t" none (some "n1") none) ∈
      (runOps (initStore []) [Op.schedule "s" "b" [7] "t" true [] none false,
        Op.report "n1" 1 (Outcome.failed (some ""))]).deliveries) ∧
    (((Delivery.mk 1 7 none (Snapshot.mk none none none none) "failed"
        (some "send_error") "t" none (some "n1") none).error ≠ none ↔
      (Delivery.mk 1 7 none (Snapshot.mk none none none none) "failed"
        (some "send_error") "t" none (some "n1") none).status = "failed") ∧
     (∀ (now : String) (reason rb : Option String) (d0 : Delivery),
        reason = none ∨ reason = some "" →
        (deliveryPatch now "failed" reason rb d0).error = some "send_error") ∧
     (∀ (now : String) (e rb : Option String) (d0 : Delivery),
        (deliveryPatch now "sent" e rb d0).error = none)) :=
  ⟨by decide, claim_C9_error_iff_failed []
    [Op.schedule "s" "b" [7] "t" true [] none false,
      Op.report "n1" 1 (Outcome.failed (some ""))] 1
    (Delivery.mk 1 7 none (Snapshot.mk none none none none) "failed"
      (some "send_error") "t" none (some "n1") none) (by decide)⟩

theorem update_delivery_status_deliveries (s : Store) (now : String) (id : Nat)
    (st : String) (e rb : Option String) :
    (update_delivery_status s now id st e rb).deliveries =
      updateRow s.deliveries id (deliveryPatch now st e rb) := by
  simp only [update_delivery_status]
  split <;> rfl

theorem delete_scheduled_email_deliveries (s : Store) (now : String) (cid : Nat) :
    (delete_scheduled_email s now cid).deliveries =
      removeRows s.deliveries
        ((s.deliveries.filter fun p =>
          p.2.campaign_id = cid && p.2.status = "pending").map Prod.fst) := by
  simp only [delete_scheduled_email]
  split <;> rfl

theorem schedule_email_deliveries (s : Store) (subject body : String)
    (recipients : List Nat) (sched : String) (sig : Bool) (atts : List String)
    (rem : Option String) (html : Bool) :
    (schedule_email s subject body recipients sched sig atts rem html).1.deliveries =
      insertDeliveries s.profiles (nextId s.emails) sched s.deliveries recipients := rfl

/-- A delivery row present both before and after one repository operation
keeps its schedule time (the patch of a reported outcome never touches
it, cancellation only removes rows, scheduling only appends fresh rows). -/
theorem applyOp_schedule_time (s : Store) (ndD : (keysOf s.deliveries).Nodup)
    (op : Op) (i : Nat) (d : Delivery) (hmem : (i, d) ∈ s.deliveries)
    (d1 : Delivery) (hmem1 : (i, d1) ∈ (applyOp s op).deliveries) :
    d1.schedule_time = d.schedule_time := by
  cases op with
  | schedule subject body recipients sched sig atts rem html =>
      obtain ⟨ext, he, hm, hge, hnd⟩ :=
        insertDeliveries_spec s.profiles (nextId s.emails) sched recipients s.deliveries
      have hD : (applyOp s (Op.schedule subject body recipients sched sig atts rem html)).deliveries =
          s.deliveries ++ ext := by
        show (schedule_email s subject body recipients sched sig atts rem html).1.deliveries = _
        rw [schedule_email_deliveries, he]
      rw [hD] at hmem1
      rcases List.mem_append.mp hmem1 with h | h
      · rw [key_unique ndD h hmem]
      · have h1 := hge (i, d1) h
        have h2 := lt_nextId hmem
        omega
  | report now id outcome =>
      have hD : (applyOp s (Op.report now id outcome)).deliveries =
          updateRow s.deliveries id (deliveryPatch now
            (match outcome with | Outcome.sent _ => "sent" | Outcome.failed _ => "failed")
            (match outcome with | Outcome.sent _ => none | Outcome.failed r => r)
            (match outcome with | Outcome.sent rb => rb | Outcome.failed _ => none)) := by
        cases outcome <;> exact update_delivery_status_deliveries _ _ _ _ _ _
      rw [hD] at hmem1
      rcases mem_updateRow_cases hmem1 with ⟨_, hold⟩ | ⟨b, hb, hqe⟩
      · rw [key_unique ndD hold hmem]
      · have hbi : (i, b) ∈ s.deliveries := by
          have : i = id := congrArg Prod.fst hqe
          rw [this]
          exact hb
        have hbd : b = d := key_unique ndD hbi hmem
        have hd1 : d1 = deliveryPatch now _ _ _ b := congrArg Prod.snd hqe
        rw [hd1, deliveryPatch_schedule_time, hbd]
  | cancel now cid =>
      simp only [applyOp] at hmem1
      rw [delete_scheduled_email_deliveries] at hmem1
      have h := (mem_removeRows.mp hmem1).1
      rw [key_unique ndD h hmem]

/-- Along any operation sequence during which a delivery id stays in the
table, the schedule time of its row never changes. -/
theorem schedule_time_stable (s : Store) (hInv : Inv s) (ops : List Op)
    (i : Nat) (d : Delivery) (hmem : (i, d) ∈ s.deliveries)
    (hpers : persistsThrough s ops i)
    (d' : Delivery) (hmem' : (i, d') ∈ (runOps s ops).deliveries) :
    d'.schedule_time = d.schedule_time := by
  induction ops generalizing s d with
  | nil =>
      rw [key_unique hInv.2.1 hmem' hmem]
  | cons op rest ih =>
      have hk1 : i ∈ keysOf (applyOp s op).deliveries := by
        have := hpers 1 (by simp)
        simpa [runOps] using this
      rcases mem_keysOf.mp hk1 with ⟨d1, hd1⟩
      have hstep := applyOp_schedule_time s hInv.2.1 op i d hmem d1 hd1
      have hpers' : persistsThrough (applyOp s op) rest i := by
        intro k hk
        have := hpers (k + 1) (by simpa using Nat.succ_le_succ hk)
        simpa [runOps, List.take_succ_cons] using this
      have htail := ih (applyOp s op) (inv_applyOp s hInv op) d1 hd1 hpers'
        (by simpa [runOps] using hmem')
      rw [htail, hstep]

/-- C4 counterexample: a delivery already reported sent is modified by a
second update_delivery_status call, which flips it to failed, rewrites its
error and last_attempt, and leaves the stale sent_time in place — the code
never guards on the current status, so a sent delivery is not immutable. -/
theorem claim_C4_counterexample :
    getRow (runOps (initStore []) [Op.schedule "s" "b" [1] "t" true [] none false,
        Op.report "n1" 1 (Outcome.sent none)]).deliveries 1 =
      some (Delivery.mk 1 1 none (Snapshot.mk none none none none) "sent" none
        "t" (some "n1") (some "n1") none) ∧
    getRow (runOps (initStore []) [Op.schedule "s" "b" [1] "t" true [] none false,
        Op.report "n1" 1 (Outcome.sent none),
        Op.report "n2" 1 (Outcome.failed none)]).deliveries 1 =
      some (Delivery.mk 1 1 none (Snapshot.mk none none none none) "failed"
        (some "send_error") "t" (some "n1") (some "n2") none) ∧
    Delivery.mk 1 1 none (Snapshot.mk none none none none) "sent" none
        "t" (some "n1") (some "n1") none ≠
      Delivery.mk 1 1 none (Snapshot.mk none none none none) "failed"
        (some "send_error") "t" (some "n1") (some "n2") none := by
  refine ⟨by decide, by decide, by decide⟩

/-- C4 amended: as long as a delivery row persists in the table, its
schedule time never changes and its status stays within the three
delivery states; but a delivery is not immutable once sent or failed —
update_delivery_status overwrites the status with the newly reported
outcome unconditionally, so a second report on the same id modifies the
row (possibly flipping sent and failed). -/
theorem claim_C4_schedule_time_immutable (profiles : List (Nat × Profile))
    (ops1 ops2 : List Op) (i : Nat) (d d' : Delivery)
    (hmem : (i, d) ∈ (runOps (initStore profiles) ops1).deliveries)
    (hpers : persistsThrough (runOps (initStore profiles) ops1) ops2 i)
    (hmem' : (i, d') ∈ (runOps (initStore profiles) (ops1 ++ ops2)).deliveries) :
    d'.schedule_time = d.schedule_time ∧
    (d'.status = "pending" ∨ d'.status = "sent" ∨ d'.status = "failed") ∧
    (∀ (now : String) (e rb : Option String) (d0 : Delivery),
      (deliveryPatch now "sent" e rb d0).status = "sent" ∧
      (deliveryPatch now "failed" e rb d0).status = "failed") := by
  have hInv1 : Inv (runOps (initStore profiles) ops1) :=
    inv_runOps (initStore profiles) (inv_initStore profiles) ops1
  rw [runOps_append] at hmem'
  have hInv2 : Inv (runOps (runOps (initStore profiles) ops1) ops2) :=
    inv_runOps _ hInv1 ops2
  refine ⟨schedule_time_stable _ hInv1 ops2 i d hmem hpers d' hmem', ?_, ?_⟩
  · exact hInv2.2.2.2.1 (i, d') hmem'
  · intro now e rb d0
    exact ⟨deliveryPatch_status, deliveryPatch_status⟩

/-- C4 witness: the amended statement on a one-recipient campaign whose
delivery is reported sent after creation. -/
theorem claim_C4_schedule_time_immutable_witness :
    ((1, Delivery.mk 1 1 none (Snapshot.mk none none none none) "pending" none
        "t" none none none) ∈
      (runOps (initStore []) [Op.schedule "s" "b" [1] "t" true [] none false]).deliveries) ∧
    persistsThrough (runOps (initStore []) [Op.schedule "s" "b" [1] "t" true [] none false])
      [Op.report "n1" 1 (Outcome.sent none)] 1 ∧
    ((1, Delivery.mk 1 1 none (Snapshot.mk none none none none) "sent" none
        "t" (some "n1") (some "n1") none) ∈
      (runOps (initStore []) ([Op.schedule "s" "b" [1] "t" true [] none false] ++
        [Op.report "n1" 1 (Outcome.sent none)])).deliveries) ∧
    ((Delivery.mk 1 1 none (Snapshot.mk none none none none) "sent" none
        "t" (some "n1") (some "n1") none).schedule_time =
      (Delivery.mk 1 1 none (Snapshot.mk none none none none) "pending" none
        "t" none none none).schedule_time ∧
     ((Delivery.mk 1 1 none (Snapshot.mk none none none none) "sent" none
        "t" (some "n1") (some "n1") none).status = "pending" ∨
      (Delivery.mk 1 1 none (Snapshot.mk none none none none) "sent" none
        "t" (some "n1") (some "n1") none).status = "sent" ∨
      (Delivery.mk 1 1 none (Snapshot.mk none none none none) "sent" none
        "t" (some "n1") (some "n1") none).status = "failed") ∧
     (∀ (now : String) (e rb : Option String) (d0 : Delivery),
       (deliveryPatch now "sent" e rb d0).status = "sent" ∧
       (deliveryPatch now "failed" e rb d0).status = "failed")) := by
  have hp : persistsThrough
      (runOps (initStore []) [Op.schedule "s" "b" [1] "t" true [] none false])
      [Op.report "n1" 1 (Outcome.sent none)] 1 := by
    intro k hk
    simp only [List.length_cons, List.length_nil] at hk
    interval_cases k <;> decide
  exact ⟨by decide, hp, by decide,
    claim_C4_schedule_time_immutable []
      [Op.schedule "s" "b" [1] "t" true [] none false]
      [Op.report "n1" 1 (Outcome.sent none)] 1
      (Delivery.mk 1 1 none (Snapshot.mk none none none none) "pending" none
        "t" none none none)
      (Delivery.mk 1 1 none (Snapshot.mk none none none none) "sent" none
        "t" (some "n1") (some "n1") none)
      (by decide) hp (by decide)⟩

theorem recompute_deliveries_eq (s : Store) (now : String) (cid : Nat) :
    (recompute_campaign_aggregates s now cid).deliveries = s.deliveries := rfl

theorem delete_scheduled_email_split (s : Store) (now : String) (cid : Nat)
    (hndD : (keysOf s.deliveries).Nodup) :
    (((s.deliveries.filter fun p => !(p.2.campaign_id = cid && p.2.status = "pending")).filter
        fun p => p.2.campaign_id = cid) = [] →
      delete_scheduled_email s now cid =
        Store.mk s.profiles
          ((recompute_campaign_aggregates (Store.mk s.profiles s.emails
            (s.deliveries.filter fun p =>
              !(p.2.campaign_id = cid && p.2.status = "pending"))) now cid).emails.filter
            fun p => p.1 ≠ cid)
          (s.deliveries.filter fun p => !(p.2.campaign_id = cid && p.2.status = "pending"))) ∧
    (((s.deliveries.filter fun p => !(p.2.campaign_id = cid && p.2.status = "pending")).filter
        fun p => p.2.campaign_id = cid) ≠ [] →
      delete_scheduled_email s now cid =
        recompute_campaign_aggregates (Store.mk s.profiles s.emails
          (s.deliveries.filter fun p =>
            !(p.2.campaign_id = cid && p.2.status = "pending"))) now cid) := by
  have hmkdel : ∀ (P : List (Nat × Profile)) (E : List (Nat × Campaign))
      (D : List (Nat × Delivery)), (Store.mk P E D).deliveries = D := fun _ _ _ => rfl
  constructor <;> intro h <;>
    simp only [delete_scheduled_email] <;>
    rw [removeRows_map_fst_filter hndD] <;>
    simp only [recompute_deliveries_eq, hmkdel]
  · rw [if_pos (List.isEmpty_iff.mpr h)]
    rfl
  · rw [if_neg (fun hc => h (List.isEmpty_iff.mp hc))]

/-- C5: delete_scheduled_email removes exactly the pending delivery rows
of the campaign — every sent or failed row survives unchanged, in place —
recomputes the campaign aggregate on the survivors, and removes the
campaign row itself exactly when no delivery of any status remains. -/
theorem claim_C5_cancel_pending (s : Store) (now : String) (cid : Nat)
    (hndD : (keysOf s.deliveries).Nodup) (hcmem : cid ∈ keysOf s.emails) :
    (delete_scheduled_email s now cid).deliveries =
      s.deliveries.filter (fun p => !(p.2.campaign_id = cid && p.2.status = "pending")) ∧
    (cid ∈ keysOf (delete_scheduled_email s now cid).emails ↔
      ∃ p ∈ s.deliveries, p.2.campaign_id = cid ∧ ¬(p.2.status = "pending")) ∧
    (∀ c', (cid, c') ∈ (delete_scheduled_email s now cid).emails →
      c'.counts = actualCounts (delete_scheduled_email s now cid) cid) := by
  have hD : (delete_scheduled_email s now cid).deliveries =
      s.deliveries.filter (fun p => !(p.2.campaign_id = cid && p.2.status = "pending")) := by
    rw [delete_scheduled_email_deliveries]
    exact removeRows_map_fst_filter hndD _
  have hremiff : (((s.deliveries.filter fun p =>
      !(p.2.campaign_id = cid && p.2.status = "pending")).filter
        fun p => p.2.campaign_id = cid) = []) ↔
      ¬∃ p ∈ s.deliveries, p.2.campaign_id = cid ∧ ¬(p.2.status = "pending") := by
    rw [List.eq_nil_iff_forall_not_mem]
    constructor
    · intro hall ⟨p, hp, hc, hnp⟩
      exact hall p (List.mem_filter.mpr
        ⟨List.mem_filter.mpr ⟨hp, by simp [hc, hnp]⟩, by simp [hc]⟩)
    · intro hne p hp
      have h1 := List.mem_filter.mp hp
      have h2 := List.mem_filter.mp h1.1
      have hc : p.2.campaign_id = cid := by simpa using h1.2
      have hnp : ¬(p.2.status = "pending") := by
        have := h2.2
        simp [hc] at this
        exact this
      exact hne ⟨p, h2.1, hc, hnp⟩
  obtain ⟨heq1, heq2⟩ := delete_scheduled_email_split s now cid hndD
  refine ⟨hD, ?_, ?_⟩
  · -- campaign row kept iff a non-pending delivery remains
    by_cases hrem : (((s.deliveries.filter fun p =>
        !(p.2.campaign_id = cid && p.2.status = "pending")).filter
          fun p => p.2.campaign_id = cid) = [])
    · rw [heq1 hrem]
      constructor
      · intro hmem
        rcases mem_keysOf.mp hmem with ⟨c, hc⟩
        have := (List.mem_filter.mp hc).2
        simp at this
      · intro hex
        exact absurd hex (hremiff.mp hrem)
    · rw [heq2 hrem]
      constructor
      · intro _
        by_contra hnex
        exact hrem (hremiff.mpr hnex)
      · intro _
        rw [recompute_def]
        show cid ∈ keysOf (updateRow _ cid _)
        rw [keysOf_updateRow]
        exact hcmem
  · -- the surviving campaign row carries the rescanned counts
    intro c' hmem
    by_cases hrem : (((s.deliveries.filter fun p =>
        !(p.2.campaign_id = cid && p.2.status = "pending")).filter
          fun p => p.2.campaign_id = cid) = [])
    · rw [heq1 hrem] at hmem
      have := (List.mem_filter.mp hmem).2
      simp at this
    · rw [heq2 hrem] at hmem ⊢
      rw [recompute_def] at hmem
      rcases mem_updateRow_cases hmem with ⟨hne, _⟩ | ⟨c0, hc0, hqe⟩
      · exact absurd rfl hne
      · have hc' : c' = _ := congrArg Prod.snd hqe
        rw [hc']
        by_cases h0 : (actualCounts (Store.mk s.profiles s.emails
            (s.deliveries.filter fun p =>
              !(p.2.campaign_id = cid && p.2.status = "pending"))) cid).pending = 0
        · by_cases h1 : (actualCounts (Store.mk s.profiles s.emails
              (s.deliveries.filter fun p =>
                !(p.2.campaign_id = cid && p.2.status = "pending"))) cid).total = 0
          · rw [if_pos h0, if_pos h1]
            rfl
          · rw [if_pos h0, if_neg h1]
            rfl
        · rw [if_neg h0]
          rfl

/-- C5 witness: cancelling a three-recipient campaign with one sent, one
failed and one pending delivery removes only the pending row, keeps the
campaign with recomputed counts, and the scenario with only pending rows
removes the campaign entirely. -/
theorem claim_C5_cancel_pending_witness :
    ((delete_scheduled_email (runOps (initStore [])
        [Op.schedule "s" "b" [1, 2, 3] "t" true [] none false,
          Op.report "n1" 1 (Outcome.sent none),
          Op.report "n2" 2 (Outcome.failed none)]) "n3" 1).deliveries =
      (runOps (initStore [])
        [Op.schedule "s" "b" [1, 2, 3] "t" true [] none false,
          Op.report "n1" 1 (Outcome.sent none),
          Op.report "n2" 2 (Outcome.failed none)]).deliveries.filter
        (fun p => !(p.2.campaign_id = 1 && p.2.status = "pending"))) ∧
    (1 ∈ keysOf (delete_scheduled_email (runOps (initStore [])
        [Op.schedule "s" "b" [1, 2, 3] "t" true [] none false,
          Op.report "n1" 1 (Outcome.sent none),
          Op.report "n2" 2 (Outcome.failed none)]) "n3" 1).emails ↔
      ∃ p, p ∈ (runOps (initStore [])
        [Op.schedule "s" "b" [1, 2, 3] "t" true [] none false,
          Op.report "n1" 1 (Outcome.sent none),
          Op.report "n2" 2 (Outcome.failed none)]).deliveries ∧
        p.2.campaign_id = 1 ∧ ¬(p.2.status = "pending")) ∧
    (∀ c', (1, c') ∈ (delete_scheduled_email (runOps (initStore [])
        [Op.schedule "s" "b" [1, 2, 3] "t" true [] none false,
          Op.report "n1" 1 (Outcome.sent none),
          Op.report "n2" 2 (Outcome.failed none)]) "n3" 1).emails →
      c'.counts = actualCounts (delete_scheduled_email (runOps (initStore [])
        [Op.schedule "s" "b" [1, 2, 3] "t" true [] none false,
          Op.report "n1" 1 (Outcome.sent none),
          Op.report "n2" 2 (Outcome.failed none)]) "n3" 1) 1) :=
  claim_C5_cancel_pending _ "n3" 1 (by decide) (by decide)

/-- C10: whenever the aggregate recomputation runs for a campaign with no
pending deliveries but at least one delivery, it stamps the campaign
sent_time with the current clock — also when the resulting status is
failed or partial, since the stamp is written in every branch of the
terminal-status patch — and running it again without delivery changes
keeps counts and status identical while replacing sent_time with the new
clock value. -/
theorem claim_C10_sent_time_overwrite (s : Store) (t1 t2 : String) (cid : Nat)
    (c : Campaign) (hndE : (keysOf s.emails).Nodup) (hmem : (cid, c) ∈ s.emails)
    (hp : (actualCounts s cid).pending = 0) (ht : ¬((actualCounts s cid).total = 0)) :
    ∃ c1 c2,
      getRow (recompute_campaign_aggregates s t1 cid).emails cid = some c1 ∧
      getRow (recompute_campaign_aggregates
        (recompute_campaign_aggregates s t1 cid) t2 cid).emails cid = some c2 ∧
      c1.sent_time = some t1 ∧ c2.sent_time = some t2 ∧
      c1.status = aggStatus (actualCounts s cid) ∧
      c2.status = c1.status ∧ c2.counts = c1.counts ∧
      c1.counts = actualCounts s cid ∧
      (¬(t1 = t2) → ¬(c1.sent_time = c2.sent_time)) := by
  have h1 : recompute_campaign_aggregates s t1 cid =
      Store.mk s.profiles
        (updateRow s.emails cid fun c0 =>
          { c0 with
            counts := actualCounts s cid
            status := aggStatus (actualCounts s cid)
            sent_time := some t1 })
        s.deliveries := by
    rw [recompute_def, if_pos hp, if_neg ht]
  have hac2 : actualCounts (Store.mk s.profiles
      (updateRow s.emails cid fun c0 =>
        { c0 with
          counts := actualCounts s cid
          status := aggStatus (actualCounts s cid)
          sent_time := some t1 })
      s.deliveries) cid = actualCounts s cid := rfl
  have h2 : recompute_campaign_aggregates (recompute_campaign_aggregates s t1 cid) t2 cid =
      Store.mk s.profiles
        (updateRow
          (updateRow s.emails cid fun c0 =>
            { c0 with
              counts := actualCounts s cid
              status := aggStatus (actualCounts s cid)
              sent_time := some t1 })
          cid fun c0 =>
          { c0 with
            counts := actualCounts s cid
            status := aggStatus (actualCounts s cid)
            sent_time := some t2 })
        s.deliveries := by
    rw [h1, recompute_def, hac2, if_pos hp, if_neg ht]
  set f1 : Campaign → Campaign := fun c0 =>
    { c0 with
      counts := actualCounts s cid
      status := aggStatus (actualCounts s cid)
      sent_time := some t1 } with hf1
  set f2 : Campaign → Campaign := fun c0 =>
    { c0 with
      counts := actualCounts s cid
      status := aggStatus (actualCounts s cid)
      sent_time := some t2 } with hf2
  have hm1 : (cid, f1 c) ∈ updateRow s.emails cid f1 :=
    mem_updateRow.mpr ⟨(cid, c), hmem, by simp⟩
  have hm2 : (cid, f2 (f1 c)) ∈ updateRow (updateRow s.emails cid f1) cid f2 :=
    mem_updateRow.mpr ⟨(cid, f1 c), hm1, by simp⟩
  refine ⟨f1 c, f2 (f1 c), ?_, ?_, rfl, rfl, rfl, rfl, rfl, rfl, ?_⟩
  · rw [h1]
    exact getRow_eq_some_of_mem (by rw [keysOf_updateRow]; exact hndE) hm1
  · rw [h2]
    exact getRow_eq_some_of_mem
      (by rw [keysOf_updateRow, keysOf_updateRow]; exact hndE) hm2
  · intro hne
    show ¬(some t1 = some t2)
    intro hcontra
    exact hne (Option.some.inj hcontra)

/-- C10 witness: a campaign whose single delivery failed still receives a
sent_time stamp, and a second recomputation changes only that stamp. -/
theorem claim_C10_sent_time_overwrite_witness :
    ∃ c1 c2,
      getRow (recompute_campaign_aggregates (Store.mk []
        [(1, Campaign.mk "s" "b" false [1] "scheduled" "t" none none true []
          (Counts.mk 1 1 0 0))]
        [(1, Delivery.mk 1 1 none (Snapshot.mk none none none none) "failed"
          (some "send_error") "t" none (some "n") none)]) "t1" 1).emails 1 = some c1 ∧
      getRow (recompute_campaign_aggregates (recompute_campaign_aggregates (Store.mk []
        [(1, Campaign.mk "s" "b" false [1] "scheduled" "t" none none true []
          (Counts.mk 1 1 0 0))]
        [(1, Delivery.mk 1 1 none (Snapshot.mk none none none none) "failed"
          (some "send_error") "t" none (some "n") none)]) "t1" 1) "t2" 1).emails 1 =
        some c2 ∧
      c1.sent_time = some "t1" ∧ c2.sent_time = some "t2" ∧
      c1.status = aggStatus (actualCounts (Store.mk []
        [(1, Campaign.mk "s" "b" false [1] "scheduled" "t" none none true []
          (Counts.mk 1 1 0 0))]
        [(1, Delivery.mk 1 1 none (Snapshot.mk none none none none) "failed"
          (some "send_error") "t" none (some "n") none)]) 1) ∧
      c2.status = c1.status ∧ c2.counts = c1.counts ∧
      c1.counts = actualCounts (Store.mk []
        [(1, Campaign.mk "s" "b" false [1] "scheduled" "t" none none true []
          (Counts.mk 1 1 0 0))]
        [(1, Delivery.mk 1 1 none (Snapshot.mk none none none none) "failed"
          (some "send_error") "t" none (some "n") none)]) 1 ∧
      (¬(("t1" : String) = "t2") → ¬(c1.sent_time = c2.sent_time)) :=
  claim_C10_sent_time_overwrite (Store.mk []
      [(1, Campaign.mk "s" "b" false [1] "scheduled" "t" none none true []
        (Counts.mk 1 1 0 0))]
      [(1, Delivery.mk 1 1 none (Snapshot.mk none none none none) "failed"
        (some "send_error") "t" none (some "n") none)]) "t1" "t2" 1
    (Campaign.mk "s" "b" false [1] "scheduled" "t" none none true []
      (Counts.mk 1 1 0 0)) (by decide) (by decide) (by decide) (by decide)

/-
  Lexicographic comparison of rendered canonical timestamps versus the
  numeric order of the instants they denote.
-/

theorem lexLt_cons (a b : Char) (x y : List Char) :
    lexLt (a :: x) (b :: y) =
      (if a.toNat < b.toNat then true
       else if b.toNat < a.toNat then false else lexLt x y) := rfl

theorem lexLt_nil_nil : lexLt ([] : List Char) [] = false := rfl

theorem char_eq_of_toNat_eq {a b : Char} (h : a.toNat = b.toNat) : a = b := by
  rw [← Char.ofNat_toNat a, ← Char.ofNat_toNat b, h]

theorem dchar_lt_iff : ∀ d1 < 10, ∀ d2 < 10,
    ((dchar d1).toNat < (dchar d2).toNat ↔ d1 < d2) := by decide

theorem dchar_inj : ∀ d1 < 10, ∀ d2 < 10, (dchar d1 = dchar d2 ↔ d1 = d2) := by decide

theorem padNum_length : ∀ (w n : Nat), (padNum w n).length = w := by
  intro w
  induction w with
  | zero => intro n; rfl
  | succ w ih =>
      intro n
      simp [padNum, ih]

theorem lexLt_append : ∀ {u v : List Char}, u.length = v.length → ∀ {x y : List Char},
    (lexLt (u ++ x) (v ++ y) = true ↔
      (lexLt u v = true ∨ (u = v ∧ lexLt x y = true))) := by
  intro u
  induction u with
  | nil =>
      intro v hv x y
      have hv0 : v = [] := List.length_eq_zero.mp hv.symm
      subst hv0
      simp [lexLt_nil_nil]
  | cons a as ih =>
      intro v hv x y
      cases v with
      | nil => simp at hv
      | cons b bs =>
          simp only [List.length_cons, Nat.succ.injEq] at hv
          rcases Nat.lt_trichotomy a.toNat b.toNat with h1 | h1 | h1
          · simp only [List.cons_append, lexLt_cons, if_pos h1]
            simp
          · have hab : a = b := char_eq_of_toNat_eq h1
            subst hab
            simp only [List.cons_append, lexLt_cons, if_neg (Nat.lt_irrefl a.toNat)]
            rw [ih hv]
            simp [List.cons.injEq]
          · have h2 : ¬(a.toNat < b.toNat) := by omega
            simp only [List.cons_append, lexLt_cons, if_neg h2, if_pos h1]
            constructor
            · intro hcontra
              cases hcontra
            · rintro (hcontra | ⟨heq, _⟩)
              · cases hcontra
              · injection heq with ha _
                rw [ha] at h1
                exact absurd h1 (Nat.lt_irrefl _)

theorem padNum_lt_iff : ∀ (w : Nat) {n m : Nat}, n < 10 ^ w → m < 10 ^ w →
    (lexLt (padNum w n) (padNum w m) = true ↔ n < m) := by
  intro w
  induction w with
  | zero =>
      intro n m hn hm
      rw [pow_zero] at hn hm
      have hn0 : n = 0 := Nat.lt_one_iff.mp hn
      have hm0 : m = 0 := Nat.lt_one_iff.mp hm
      subst hn0
      subst hm0
      simp [padNum, lexLt_nil_nil]
  | succ w ih =>
      intro n m hn hm
      have hp : 0 < 10 ^ w := pow_pos (by norm_num) w
      have hps : (10 : Nat) ^ (w + 1) = 10 ^ w * 10 := pow_succ 10 w
      have hdn : n / 10 ^ w < 10 := (Nat.div_lt_iff_lt_mul hp).mpr (by omega)
      have hdm : m / 10 ^ w < 10 := (Nat.div_lt_iff_lt_mul hp).mpr (by omega)
      have hsn : 10 ^ w * (n / 10 ^ w) + n % 10 ^ w = n := Nat.div_add_mod n (10 ^ w)
      have hsm : 10 ^ w * (m / 10 ^ w) + m % 10 ^ w = m := Nat.div_add_mod m (10 ^ w)
      have hrn : n % 10 ^ w < 10 ^ w := Nat.mod_lt n hp
      have hrm : m % 10 ^ w < 10 ^ w := Nat.mod_lt m hp
      show lexLt (dchar (n / 10 ^ w) :: padNum w (n % 10 ^ w))
        (dchar (m / 10 ^ w) :: padNum w (m % 10 ^ w)) = true ↔ n < m
      rw [lexLt_cons]
      by_cases hlt : (dchar (n / 10 ^ w)).toNat < (dchar (m / 10 ^ w)).toNat
      · rw [if_pos hlt]
        have hq : n / 10 ^ w < m / 10 ^ w :=
          (dchar_lt_iff _ hdn _ hdm).mp hlt
        have hmul : 10 ^ w * (n / 10 ^ w + 1) ≤ 10 ^ w * (m / 10 ^ w) :=
          Nat.mul_le_mul_left _ (by omega)
        have hms : 10 ^ w * (n / 10 ^ w + 1) = 10 ^ w * (n / 10 ^ w) + 10 ^ w :=
          Nat.mul_succ _ _
        simp only [true_iff]
        omega
      · rw [if_neg hlt]
        by_cases hgt : (dchar (m / 10 ^ w)).toNat < (dchar (n / 10 ^ w)).toNat
        · rw [if_pos hgt]
          have hq : m / 10 ^ w < n / 10 ^ w :=
            (dchar_lt_iff _ hdm _ hdn).mp hgt
          have hmul : 10 ^ w * (m / 10 ^ w + 1) ≤ 10 ^ w * (n / 10 ^ w) :=
            Nat.mul_le_mul_left _ (by omega)
          have hms : 10 ^ w * (m / 10 ^ w + 1) = 10 ^ w * (m / 10 ^ w) + 10 ^ w :=
            Nat.mul_succ _ _
          constructor
          · intro hcontra
            cases hcontra
          · intro hcontra
            omega
        · rw [if_neg hgt]
          have hq : n / 10 ^ w = m / 10 ^ w := by
            have hnlt : ¬(n / 10 ^ w < m / 10 ^ w) :=
              fun hcontra => hlt ((dchar_lt_iff _ hdn _ hdm).mpr hcontra)
            have hnmgt : ¬(m / 10 ^ w < n / 10 ^ w) :=
              fun hcontra => hgt ((dchar_lt_iff _ hdm _ hdn).mpr hcontra)
            omega
          rw [ih hrn hrm]
          rw [hq] at hsn
          omega

theorem padNum_inj : ∀ (w : Nat) {n m : Nat}, n < 10 ^ w → m < 10 ^ w →
    (padNum w n = padNum w m ↔ n = m) := by
  intro w
  induction w with
  | zero =>
      intro n m hn hm
      rw [pow_zero] at hn hm
      have hn0 : n = 0 := Nat.lt_one_iff.mp hn
      have hm0 : m = 0 := Nat.lt_one_iff.mp hm
      subst hn0
      subst hm0
      simp
  | succ w ih =>
      intro n m hn hm
      have hp : 0 < 10 ^ w := pow_pos (by norm_num) w
      have hps : (10 : Nat) ^ (w + 1) = 10 ^ w * 10 := pow_succ 10 w
      have hdn : n / 10 ^ w < 10 := (Nat.div_lt_iff_lt_mul hp).mpr (by omega)
      have hdm : m / 10 ^ w < 10 := (Nat.div_lt_iff_lt_mul hp).mpr (by omega)
      have hsn : 10 ^ w * (n / 10 ^ w) + n % 10 ^ w = n := Nat.div_add_mod n (10 ^ w)
      have hsm : 10 ^ w * (m / 10 ^ w) + m % 10 ^ w = m := Nat.div_add_mod m (10 ^ w)
      have hrn : n % 10 ^ w < 10 ^ w := Nat.mod_lt n hp
      have hrm : m % 10 ^ w < 10 ^ w := Nat.mod_lt m hp
      show (dchar (n / 10 ^ w) :: padNum w (n % 10 ^ w)) =
        (dchar (m / 10 ^ w) :: padNum w (m % 10 ^ w)) ↔ n = m
      rw [List.cons.injEq, dchar_inj _ hdn _ hdm, ih hrn hrm]
      constructor
      · rintro ⟨hq, hr⟩
        rw [hq] at hsn
        omega
      · intro he
        subst he
        exact ⟨rfl, rfl⟩

theorem lexLt_field {w : Nat} {a b : Nat} {x y : List Char}
    (ha : a < 10 ^ w) (hb : b < 10 ^ w) :
    (lexLt (padNum w a ++ x) (padNum w b ++ y) = true ↔
      (a < b ∨ (a = b ∧ lexLt x y = true))) := by
  rw [lexLt_append (by rw [padNum_length, padNum_length])]
  rw [padNum_lt_iff w ha hb, padNum_inj w ha hb]

theorem lexLt_cons_same (c : Char) (x y : List Char) :
    lexLt (c :: x) (c :: y) = lexLt x y := by
  rw [lexLt_cons, if_neg (Nat.lt_irrefl c.toNat), if_neg (Nat.lt_irrefl c.toNat)]

theorem lexLt_single_same (c : Char) : lexLt [c] [c] = false := by
  rw [lexLt_cons_same, lexLt_nil_nil]

/-- The stored lexical order of two rendered canonical timestamps agrees
with the numeric order of the instants they denote whenever both carry a
fractional part or neither does. -/
theorem lexLt_renderIso {t1 t2 : IsoTime} (h1 : WFIso t1) (h2 : WFIso t2)
    (hm : t1.micro = 0 ↔ t2.micro = 0) :
    (lexLt (renderIsoChars t1) (renderIsoChars t2) = true ↔
      encodeIso t1 < encodeIso t2) := by
  obtain ⟨hy1, hmo1, hd1, hh1, hmi1, hs1, hu1⟩ := h1
  obtain ⟨hy2, hmo2, hd2, hh2, hmi2, hs2, hu2⟩ := h2
  have hy1' : t1.year < 10 ^ 4 := by omega
  have hy2' : t2.year < 10 ^ 4 := by omega
  have hmo1' : t1.month < 10 ^ 2 := by omega
  have hmo2' : t2.month < 10 ^ 2 := by omega
  have hd1' : t1.day < 10 ^ 2 := by omega
  have hd2' : t2.day < 10 ^ 2 := by omega
  have hh1' : t1.hour < 10 ^ 2 := by omega
  have hh2' : t2.hour < 10 ^ 2 := by omega
  have hmi1' : t1.minute < 10 ^ 2 := by omega
  have hmi2' : t2.minute < 10 ^ 2 := by omega
  have hs1' : t1.second < 10 ^ 2 := by omega
  have hs2' : t2.second < 10 ^ 2 := by omega
  have hu1' : t1.micro < 10 ^ 6 := by omega
  have hu2' : t2.micro < 10 ^ 6 := by omega
  have htail : (lexLt
      (if t1.micro = 0 then ['Z'] else '.' :: (padNum 6 t1.micro ++ ['Z']))
      (if t2.micro = 0 then ['Z'] else '.' :: (padNum 6 t2.micro ++ ['Z'])) = true ↔
      t1.micro < t2.micro) := by
    by_cases hz1 : t1.micro = 0
    · have hz2 : t2.micro = 0 := hm.mp hz1
      rw [if_pos hz1, if_pos hz2, hz1, hz2]
      simp [lexLt_single_same]
    · have hz2 : ¬(t2.micro = 0) := fun h => hz1 (hm.mpr h)
      rw [if_neg hz1, if_neg hz2, lexLt_cons_same]
      rw [lexLt_field hu1' hu2']
      simp [lexLt_single_same]
  unfold renderIsoChars
  rw [lexLt_field hy1' hy2']
  unfold encodeIso
  constructor
  · rintro (hlt | ⟨hye, htl⟩)
    · omega
    · rw [lexLt_cons_same, lexLt_field hmo1' hmo2'] at htl
      rcases htl with hlt | ⟨hmoe, htl⟩
      · rw [hye]
        omega
      · rw [lexLt_cons_same, lexLt_field hd1' hd2'] at htl
        rcases htl with hlt | ⟨hde, htl⟩
        · rw [hye, hmoe]
          omega
        · rw [lexLt_cons_same, lexLt_field hh1' hh2'] at htl
          rcases htl with hlt | ⟨hhe, htl⟩
          · rw [hye, hmoe, hde]
            omega
          · rw [lexLt_cons_same, lexLt_field hmi1' hmi2'] at htl
            rcases htl with hlt | ⟨hmie, htl⟩
            · rw [hye, hmoe, hde, hhe]
              omega
            · rw [lexLt_cons_same, lexLt_field hs1' hs2'] at htl
              rcases htl with hlt | ⟨hse, htl⟩
              · rw [hye, hmoe, hde, hhe, hmie]
                omega
              · rw [htail] at htl
                rw [hye, hmoe, hde, hhe, hmie, hse]
                omega
  · intro henc
    by_cases hylt : t1.year < t2.year
    · exact Or.inl hylt
    · have hye : t1.year = t2.year := by omega
      refine Or.inr ⟨hye, ?_⟩
      rw [lexLt_cons_same, lexLt_field hmo1' hmo2']
      by_cases hmolt : t1.month < t2.month
      · exact Or.inl hmolt
      · have hmoe : t1.month = t2.month := by omega
        refine Or.inr ⟨hmoe, ?_⟩
        rw [lexLt_cons_same, lexLt_field hd1' hd2']
        by_cases hdlt : t1.day < t2.day
        · exact Or.inl hdlt
        · have hde : t1.day = t2.day := by omega
          refine Or.inr ⟨hde, ?_⟩
          rw [lexLt_cons_same, lexLt_field hh1' hh2']
          by_cases hhlt : t1.hour < t2.hour
          · exact Or.inl hhlt
          · have hhe : t1.hour = t2.hour := by omega
            refine Or.inr ⟨hhe, ?_⟩
            rw [lexLt_cons_same, lexLt_field hmi1' hmi2']
            by_cases hmilt : t1.minute < t2.minute
            · exact Or.inl hmilt
            · have hmie : t1.minute = t2.minute := by omega
              refine Or.inr ⟨hmie, ?_⟩
              rw [lexLt_cons_same, lexLt_field hs1' hs2']
              by_cases hslt : t1.second < t2.second
              · exact Or.inl hslt
              · have hse : t1.second = t2.second := by omega
                refine Or.inr ⟨hse, ?_⟩
                rw [htail]
                omega

/-- Python string less-or-equal on rendered canonical timestamps agrees
with numeric instant order when the two timestamps have the same
fractional-part presence. -/
theorem strLe_renderIso {t1 t2 : IsoTime} (h1 : WFIso t1) (h2 : WFIso t2)
    (hm : t1.micro = 0 ↔ t2.micro = 0) :
    (strLe (renderIso t1) (renderIso t2) = true ↔ encodeIso t1 ≤ encodeIso t2) := by
  have hb := lexLt_renderIso h2 h1 (Iff.symm hm)
  have hun : strLe (renderIso t1) (renderIso t2) =
      !(lexLt (renderIsoChars t2) (renderIsoChars t1)) := rfl
  rw [hun]
  constructor
  · intro h
    apply Nat.le_of_not_lt
    intro hc
    rw [hb.mpr hc] at h
    cases h
  · intro h
    cases hcase : lexLt (renderIsoChars t2) (renderIsoChars t1) with
    | false => rfl
    | true => exact absurd (hb.mp hcase) (Nat.not_lt.mpr h)

/-- C3 counterexample: a pending delivery stored at a whole-second
canonical time is numerically due at a clock reading one microsecond into
the same second, yet get_due_deliveries does not return it, because the
lexical string comparison places the fractional rendering before the
whole-second rendering. -/
theorem claim_C3_counterexample :
    ((1, Delivery.mk 1 1 none (Snapshot.mk none none none none) "pending" none
        (renderIso (IsoTime.mk 2026 1 1 0 0 0 0)) none none none) ∈
      (Store.mk [] [] [(1, Delivery.mk 1 1 none (Snapshot.mk none none none none)
        "pending" none (renderIso (IsoTime.mk 2026 1 1 0 0 0 0)) none none
        none)]).deliveries) ∧
    (Delivery.mk 1 1 none (Snapshot.mk none none none none) "pending" none
      (renderIso (IsoTime.mk 2026 1 1 0 0 0 0)) none none none).status = "pending" ∧
    encodeIso (IsoTime.mk 2026 1 1 0 0 0 0) ≤ encodeIso (IsoTime.mk 2026 1 1 0 0 0 1) ∧
    get_due_deliveries (Store.mk [] [] [(1, Delivery.mk 1 1 none
        (Snapshot.mk none none none none) "pending" none
        (renderIso (IsoTime.mk 2026 1 1 0 0 0 0)) none none none)])
      (renderIso (IsoTime.mk 2026 1 1 0 0 0 1)) = [] := by
  refine ⟨by decide, rfl, by decide, by decide⟩

/-- C3 amended: get_due_deliveries returns exactly the pending rows whose
stored schedule string is lexically at most the clock string, and never a
sent or failed row; the lexical comparison coincides with numeric
absolute-time order for timestamps of equal fractional-part presence, but
not across mixed precision within one second. -/
theorem claim_C3_due_deliveries (s : Store) (now : IsoTime) (p : Nat × Delivery)
    (t1 t2 : IsoTime) (h1 : WFIso t1) (h2 : WFIso t2)
    (hm : t1.micro = 0 ↔ t2.micro = 0) :
    (p ∈ get_due_deliveries s (renderIso now) ↔
      p ∈ s.deliveries ∧ p.2.status = "pending" ∧
        strLe p.2.schedule_time (renderIso now) = true) ∧
    (p ∈ get_due_deliveries s (renderIso now) →
      ¬(p.2.status = "sent") ∧ ¬(p.2.status = "failed")) ∧
    (strLe (renderIso t1) (renderIso t2) = true ↔ encodeIso t1 ≤ encodeIso t2) := by
  have hmem : p ∈ get_due_deliveries s (renderIso now) ↔
      p ∈ s.deliveries ∧ p.2.status = "pending" ∧
        strLe p.2.schedule_time (renderIso now) = true := by
    simp [get_due_deliveries, List.mem_filter]
  refine ⟨hmem, ?_, strLe_renderIso h1 h2 hm⟩
  intro hp
  have h := (hmem.mp hp).2.1
  rw [h]
  exact ⟨by decide, by decide⟩

/-- C3 witness: the amended characterization at a one-delivery store and
two concrete whole-second timestamps. -/
theorem claim_C3_due_deliveries_witness :
    ((1, Delivery.mk 1 1 none (Snapshot.mk none none none none) "pending" none
        (renderIso (IsoTime.mk 2026 1 1 0 0 0 0)) none none none) ∈
      get_due_deliveries (Store.mk [] [] [(1, Delivery.mk 1 1 none
        (Snapshot.mk none none none none) "pending" none
        (renderIso (IsoTime.mk 2026 1 1 0 0 0 0)) none none none)])
        (renderIso (IsoTime.mk 2026 1 2 0 0 0 0)) ↔
      (1, Delivery.mk 1 1 none (Snapshot.mk none none none none) "pending" none
        (renderIso (IsoTime.mk 2026 1 1 0 0 0 0)) none none none) ∈
        (Store.mk [] [] [(1, Delivery.mk 1 1 none (Snapshot.mk none none none none)
          "pending" none (renderIso (IsoTime.mk 2026 1 1 0 0 0 0)) none none
          none)]).deliveries ∧
      (Delivery.mk 1 1 none (Snapshot.mk none none none none) "pending" none
        (renderIso (IsoTime.mk 2026 1 1 0 0 0 0)) none none none).status = "pending" ∧
      strLe (Delivery.mk 1 1 none (Snapshot.mk none none none none) "pending" none
          (renderIso (IsoTime.mk 2026 1 1 0 0 0 0)) none none none).schedule_time
        (renderIso (IsoTime.mk 2026 1 2 0 0 0 0)) = true) ∧
    ((1, Delivery.mk 1 1 none (Snapshot.mk none none none none) "pending" none
        (renderIso (IsoTime.mk 2026 1 1 0 0 0 0)) none none none) ∈
      get_due_deliveries (Store.mk [] [] [(1, Delivery.mk 1 1 none
        (Snapshot.mk none none none none) "pending" none
        (renderIso (IsoTime.mk 2026 1 1 0 0 0 0)) none none none)])
        (renderIso (IsoTime.mk 2026 1 2 0 0 0 0)) →
      ¬((Delivery.mk 1 1 none (Snapshot.mk none none none none) "pending" none
        (renderIso (IsoTime.mk 2026 1 1 0 0 0 0)) none none none).status = "sent") ∧
      ¬((Delivery.mk 1 1 none (Snapshot.mk none none none none) "pending" none
        (renderIso (IsoTime.mk 2026 1 1 0 0 0 0)) none none none).status = "failed")) ∧
    (strLe (renderIso (IsoTime.mk 2026 1 1 0 0 0 0))
        (renderIso (IsoTime.mk 2026 1 2 0 0 0 0)) = true ↔
      encodeIso (IsoTime.mk 2026 1 1 0 0 0 0) ≤ encodeIso (IsoTime.mk 2026 1 2 0 0 0 0)) :=
  claim_C3_due_deliveries
    (Store.mk [] [] [(1, Delivery.mk 1 1 none (Snapshot.mk none none none none)
      "pending" none (renderIso (IsoTime.mk 2026 1 1 0 0 0 0)) none none none)])
    (IsoTime.mk 2026 1 2 0 0 0 0)
    (1, Delivery.mk 1 1 none (Snapshot.mk none none none none) "pending" none
      (renderIso (IsoTime.mk 2026 1 1 0 0 0 0)) none none none)
    (IsoTime.mk 2026 1 1 0 0 0 0) (IsoTime.mk 2026 1 2 0 0 0 0)
    (by decide) (by decide) (by decide)

/-
  C7: search over sent campaigns; C8: timezone round trip; C6: the
  shipped worker loop.
-/

theorem reMatchAt_eq_isPrefixCI {p : List Char} (hp : ¬('.' ∈ p)) :
    ∀ s, reMatchAt p s = isPrefixCI p s := by
  induction p with
  | nil => intro s; rfl
  | cons c cs ih =>
      intro s
      have hc : ¬(c = '.') := fun h => hp (h ▸ List.mem_cons_self c cs)
      have hcs : ¬('.' ∈ cs) := fun h => hp (List.mem_cons_of_mem _ h)
      cases s with
      | nil => rfl
      | cons b bs =>
          simp only [reMatchAt, isPrefixCI, if_neg hc]
          rw [ih hcs]

theorem reSearchAux_eq_containsCIAux {p : List Char} (hp : ¬('.' ∈ p)) :
    ∀ l, reSearchAux p l = containsCIAux p l := by
  intro l
  induction l with
  | nil =>
      show reMatchAt p [] = isPrefixCI p []
      exact reMatchAt_eq_isPrefixCI hp []
  | cons c cs ih =>
      simp only [reSearchAux, containsCIAux]
      rw [reMatchAt_eq_isPrefixCI hp, ih]

/-- C7 counterexample: the term a.c — a dot is a regex metacharacter —
matches the sent campaign whose subject is abc, although a.c is not a
substring of abc or of the empty body: TinyDB Query.search runs re.search
on the field, not a literal substring test. The matcher is instantiated at
reSearch, which is faithful to re.search on a.c since dot is the only
metacharacter it contains. -/
theorem claim_C7_counterexample :
    search_emails reSearch (Store.mk []
      [(1, Campaign.mk "abc" "" false [1] "sent" "t" (some "t") none true []
        (Counts.mk 1 0 1 0))] []) "a.c" =
      [(1, Campaign.mk "abc" "" false [1] "sent" "t" (some "t") none true []
        (Counts.mk 1 0 1 0))] ∧
    containsCI "a.c" "abc" = false ∧
    containsCI "a.c" "" = false := by
  refine ⟨by decide, by decide, by decide⟩

/-- C7 amended: for every matcher m — Python's re.search with
re.IGNORECASE included, since the memberships hold for all of them —
search_emails under m returns exactly the campaigns of aggregate status
sent whose subject or body m accepts for the term, and never returns a
campaign of status scheduled, partial or failed, whatever the term (so
also for terms with metacharacters or invalid patterns); and for a needle
free of every regex metacharacter the modelled regular-expression match is
exactly case-insensitive substring containment. -/
theorem claim_C7_search_sent (m : String → String → Bool) (s : Store)
    (term : String) (p : Nat × Campaign) (needle hay : String)
    (hlit : isLiteralTerm needle = true) :
    (p ∈ search_emails m s term ↔
      p ∈ s.emails ∧ p.2.status = "sent" ∧
        (m term p.2.subject = true ∨ m term p.2.body = true)) ∧
    (p ∈ search_emails m s term →
      ¬(p.2.status = "scheduled") ∧ ¬(p.2.status = "partial") ∧
        ¬(p.2.status = "failed")) ∧
    reSearch needle hay = containsCI needle hay := by
  have hmem : p ∈ search_emails m s term ↔
      p ∈ s.emails ∧ p.2.status = "sent" ∧
        (m term p.2.subject = true ∨ m term p.2.body = true) := by
    simp [search_emails, List.mem_filter]
  refine ⟨hmem, ?_, ?_⟩
  · intro hp
    have h := (hmem.mp hp).2.1
    rw [h]
    exact ⟨by decide, by decide, by decide⟩
  · have hnd : ¬('.' ∈ needle.data) := by
      intro hdot
      have hall : needle.data.all (fun c => !(regexMeta c)) = true := hlit
      have hc := List.all_eq_true.mp hall '.' hdot
      exact absurd hc (by decide)
    show reSearchAux needle.data hay.data = containsCIAux needle.data hay.data
    exact reSearchAux_eq_containsCIAux hnd hay.data

/-- C7 witness: the amended statement with the matcher instantiated at
reSearch, a store with one sent and one partial campaign, the
metacharacter-free term ab, and a concrete haystack. -/
theorem claim_C7_search_sent_witness :
    ((1, Campaign.mk "Hello ABc" "" false [1] "sent" "t" (some "t") none true []
        (Counts.mk 1 0 1 0)) ∈
      search_emails reSearch (Store.mk []
        [(1, Campaign.mk "Hello ABc" "" false [1] "sent" "t" (some "t") none true []
          (Counts.mk 1 0 1 0)),
         (2, Campaign.mk "ab" "ab" false [1] "partial" "t" (some "t") none true []
          (Counts.mk 2 0 1 1))] []) "ab" ↔
      (1, Campaign.mk "Hello ABc" "" false [1] "sent" "t" (some "t") none true []
        (Counts.mk 1 0 1 0)) ∈
        (Store.mk []
        [(1, Campaign.mk "Hello ABc" "" false [1] "sent" "t" (some "t") none true []
          (Counts.mk 1 0 1 0)),
         (2, Campaign.mk "ab" "ab" false [1] "partial" "t" (some "t") none true []
          (Counts.mk 2 0 1 1))] []).emails ∧
      (Campaign.mk "Hello ABc" "" false [1] "sent" "t" (some "t") none true []
        (Counts.mk 1 0 1 0)).status = "sent" ∧
      (reSearch "ab" (Campaign.mk "Hello ABc" "" false [1] "sent" "t" (some "t") none
        true [] (Counts.mk 1 0 1 0)).subject = true ∨
       reSearch "ab" (Campaign.mk "Hello ABc" "" false [1] "sent" "t" (some "t") none
        true [] (Counts.mk 1 0 1 0)).body = true)) ∧
    ((1, Campaign.mk "Hello ABc" "" false [1] "sent" "t" (some "t") none true []
        (Counts.mk 1 0 1 0)) ∈
      search_emails reSearch (Store.mk []
        [(1, Campaign.mk "Hello ABc" "" false [1] "sent" "t" (some "t") none true []
          (Counts.mk 1 0 1 0)),
         (2, Campaign.mk "ab" "ab" false [1] "partial" "t" (some "t") none true []
          (Counts.mk 2 0 1 1))] []) "ab" →
      ¬((Campaign.mk "Hello ABc" "" false [1] "sent" "t" (some "t") none true []
        (Counts.mk 1 0 1 0)).status = "scheduled") ∧
      ¬((Campaign.mk "Hello ABc" "" false [1] "sent" "t" (some "t") none true []
        (Counts.mk 1 0 1 0)).status = "partial") ∧
      ¬((Campaign.mk "Hello ABc" "" false [1] "sent" "t" (some "t") none true []
        (Counts.mk 1 0 1 0)).status = "failed")) ∧
    reSearch "ab" "xyABq" = containsCI "ab" "xyABq" :=
  claim_C7_search_sent reSearch (Store.mk []
      [(1, Campaign.mk "Hello ABc" "" false [1] "sent" "t" (some "t") none true []
        (Counts.mk 1 0 1 0)),
       (2, Campaign.mk "ab" "ab" false [1] "partial" "t" (some "t") none true []
        (Counts.mk 2 0 1 1))] []) "ab"
    (1, Campaign.mk "Hello ABc" "" false [1] "sent" "t" (some "t") none true []
      (Counts.mk 1 0 1 0)) "ab" "xyABq" (by decide)

/-- C8 counterexample: 02:30 local wall clock on 2026-03-29 in the default
display timezone Europe/Rome lies in the spring-forward gap; storing it
and reading it back yields 03:30, not the original wall-clock value.
Counts are seconds since 2026-01-01T00:00: 7525800 is 02:30 on March 29
and 7529400 is 03:30 on March 29. -/
theorem claim_C8_counterexample :
    local_roundtrip romeTz 7525800 = 7529400 ∧ (7529400 : Int) ≠ 7525800 := by
  refine ⟨by decide, by decide⟩

/-- C8 amended: the round trip through canonical storage restores the
original naive wall-clock value whenever the display timezone is
unchanged and the wall-clock value is consistent — the UTC offset the
timezone assigns at the stored instant equals the offset attached to the
local value, which fails exactly in a daylight-saving gap — and it holds
unconditionally for every fixed-offset timezone, such as the UTC
fallback. -/
theorem claim_C8_roundtrip (tz : Tz) (d : Int)
    (hcons : tz.offsetOfUtc (to_utc_instant tz d) = tz.offsetOfLocal d) :
    local_roundtrip tz d = d ∧ (∀ (o x : Int), local_roundtrip (fixedTz o) x = x) := by
  constructor
  · unfold local_roundtrip local_of_utc_instant
    rw [hcons]
    unfold to_utc_instant
    omega
  · intro o x
    show x - o + o = x
    omega

/-- C8 witness: the round trip at a winter instant in the Rome model,
where the offset is consistent, and at fixed-offset timezones. -/
theorem claim_C8_roundtrip_witness :
    local_roundtrip romeTz 1000000 = 1000000 ∧
    (∀ (o x : Int), local_roundtrip (fixedTz o) x = x) :=
  claim_C8_roundtrip romeTz 1000000 (by decide)

/-- C6: the shipped worker loop never reports a per-delivery outcome. On
a store holding one due scheduled campaign with one pending delivery, the
cycle finds due work, aborts with the AttributeError raised by the call
to the missing DatabaseHandler.update_email_status method, leaves the
store untouched, and the delivery stays pending with no outcome
recorded — the per-delivery reportOutcome path of the claim is never
executed. -/
theorem claim_C6_worker_no_report :
    get_due_emails (runOps (initStore []) [Op.schedule "s" "b" [1]
        (renderIso (IsoTime.mk 2026 1 1 0 0 0 0)) true [] none false])
      (renderIso (IsoTime.mk 2026 6 1 0 0 0 0)) ≠ [] ∧
    workerCycle (runOps (initStore []) [Op.schedule "s" "b" [1]
        (renderIso (IsoTime.mk 2026 1 1 0 0 0 0)) true [] none false])
      (renderIso (IsoTime.mk 2026 6 1 0 0 0 0)) =
      (runOps (initStore []) [Op.schedule "s" "b" [1]
        (renderIso (IsoTime.mk 2026 1 1 0 0 0 0)) true [] none false],
       some "AttributeError: DatabaseHandler has no attribute update_email_status") ∧
    getRow (runOps (initStore []) [Op.schedule "s" "b" [1]
        (renderIso (IsoTime.mk 2026 1 1 0 0 0 0)) true [] none false]).deliveries 1 =
      some (Delivery.mk 1 1 none (Snapshot.mk none none none none) "pending" none
        (renderIso (IsoTime.mk 2026 1 1 0 0 0 0)) none none none) := by
  refine ⟨by decide, by decide, by decide⟩

end EmailApp
